import Mathlib

/-!
# Verification of the multi-language-translation orchestration core

Shallow embedding, in Lean 4, of the translation engine of this repository:

* `src/lib/utils/rate-limiter.ts` — `TokenRateLimiter` and `ResponseValidator`
* `src/lib/utils/csv-parser.ts` — `RobustCSVParser.parseWithFallbacks` and helpers
* `src/lib/utils/csv-merger.ts` — `ParallelTranslationEngine` (`processGroups`,
  `processProviderGroups`, `processMixedBatch`, `processBatch`)
* `src/lib/providers/anthropic.ts` — `escapeCSV`, `parseCSVLine`,
  `parseBatchCSVResponse`, `translateBatchWithRetry`, `isRateLimitError`,
  `calculateBackoffDelay`
* the retry-merge block of the SSE route (`POST`, previousResults merge)

JavaScript `Map`s are embedded as insertion-ordered association lists,
timestamps as `Int` (milliseconds), token counts as `Nat`, network calls as
explicit oracles (`Except`-valued functions supplied as parameters), and
`Math.random()` jitter as an explicit parameter.  All definitions are
executable.
-/

namespace MLT

/-! ## Rate limiter (`src/lib/utils/rate-limiter.ts`, `TokenRateLimiter`) -/

/-- One element of `TokenRateLimiter.tokenUsage`: `{ timestamp, tokens }`. -/
structure UsageEntry where
  timestamp : Int
  tokens : Nat
  deriving Repr, DecidableEq

/-- `this.windowMs = 60000` (1 minute window). -/
def windowMs : Int := 60000

/-- `cleanOldEntries`: keep entries with `timestamp > Date.now() - windowMs`.
`now` is the value of `Date.now()` at the query. -/
def cleanOldEntries (now : Int) (log : List UsageEntry) : List UsageEntry :=
  log.filter (fun e => now - windowMs < e.timestamp)

/-- `tokenUsage.reduce((sum, entry) => sum + entry.tokens, 0)` after cleaning. -/
def windowUsage (now : Int) (log : List UsageEntry) : Nat :=
  ((cleanOldEntries now log).map (fun e => e.tokens)).sum

/-- `TokenRateLimiter.canMakeRequest(estimatedTokens)`: clean, then
`currentUsage + estimatedTokens <= this.maxTokens`.  `maxTokens` is the
budget passed to the constructor. -/
def canMakeRequest (maxTokens : Nat) (now : Int) (log : List UsageEntry)
    (estimatedTokens : Nat) : Bool :=
  windowUsage now log + estimatedTokens ≤ maxTokens

/-- The `for (const entry of this.tokenUsage)` loop of `getRequiredDelay`:
starting from `tokensToFree`, subtract each entry's tokens; on the first entry
where the running value drops to `<= 0`, return its timestamp; if the loop
ends without that happening, `oldestRelevantTimestamp` keeps its initial
value `Date.now()`. -/
def findOldestRelevant (now : Int) (tokensToFree : Int) :
    List UsageEntry → Int
  | [] => now
  | e :: rest =>
    if tokensToFree - e.tokens ≤ 0 then e.timestamp
    else findOldestRelevant now (tokensToFree - e.tokens) rest

/-- `TokenRateLimiter.getRequiredDelay(estimatedTokens)`. -/
def getRequiredDelay (maxTokens : Nat) (now : Int) (log : List UsageEntry)
    (estimatedTokens : Nat) : Int :=
  let cleaned := cleanOldEntries now log
  let currentUsage := (cleaned.map (fun e => e.tokens)).sum
  if currentUsage + estimatedTokens ≤ maxTokens then 0
  else
    let tokensToFree : Int := (currentUsage : Int) + estimatedTokens - maxTokens
    let oldestRelevantTimestamp := findOldestRelevant now tokensToFree cleaned
    let timeSinceOldest := now - oldestRelevantTimestamp
    let remainingTime := windowMs - timeSinceOldest
    max 0 remainingTime

/-- `TokenRateLimiter.recordUsage(tokens)`: push `{timestamp: Date.now(),
tokens}` then clean. -/
def recordUsage (now : Int) (log : List UsageEntry) (tokens : Nat) :
    List UsageEntry :=
  cleanOldEntries now (log ++ [⟨now, tokens⟩])

/-- Total token count of a usage log. -/
def tokSum (log : List UsageEntry) : Nat :=
  (log.map (fun e => e.tokens)).sum

end MLT

namespace MLT

/-! ### Rate-limiter lemmas -/

theorem tokSum_nil : tokSum [] = 0 := rfl

theorem tokSum_cons (e : UsageEntry) (l : List UsageEntry) :
    tokSum (e :: l) = e.tokens + tokSum l := by
  simp [tokSum]

theorem tokSum_append (l₁ l₂ : List UsageEntry) :
    tokSum (l₁ ++ l₂) = tokSum l₁ + tokSum l₂ := by
  simp [tokSum]

theorem windowUsage_eq_tokSum (now : Int) (log : List UsageEntry) :
    windowUsage now log = tokSum (cleanOldEntries now log) := rfl

theorem cleanOldEntries_mem {now : Int} {log : List UsageEntry} {e : UsageEntry}
    (h : e ∈ cleanOldEntries now log) : now - windowMs < e.timestamp := by
  have := List.of_mem_filter h
  simpa using this

theorem findOldestRelevant_of_gt_sum (now : Int) :
    ∀ (l : List UsageEntry) (f : Int),
      (tokSum l : Int) < f →
      findOldestRelevant now f l = now := by
  intro l
  induction l with
  | nil => intro f _; rfl
  | cons e rest ih =>
    intro f hf
    rw [tokSum_cons] at hf
    push_cast at hf
    have h1 : ¬ (f - (e.tokens : Int) ≤ 0) := by omega
    simp only [findOldestRelevant, if_neg h1]
    apply ih
    omega

theorem findOldestRelevant_spec (now : Int) :
    ∀ (l : List UsageEntry) (f : Int), 0 < f →
      f ≤ (tokSum l : Int) →
      ∃ pre mid post, l = pre ++ mid :: post ∧
        (tokSum pre : Int) < f ∧
        f ≤ (tokSum pre : Int) + mid.tokens ∧
        findOldestRelevant now f l = mid.timestamp := by
  intro l
  induction l with
  | nil =>
    intro f hf hle
    rw [tokSum_nil] at hle
    push_cast at hle
    omega
  | cons e rest ih =>
    intro f hf hle
    rw [tokSum_cons] at hle
    push_cast at hle
    by_cases hbreak : f - (e.tokens : Int) ≤ 0
    · refine ⟨[], e, rest, rfl, ?_, ?_, ?_⟩
      · rw [tokSum_nil]; push_cast; omega
      · rw [tokSum_nil]; push_cast; omega
      · simp [findOldestRelevant, hbreak]
    · have hf' : 0 < f - (e.tokens : Int) := by omega
      have hle' : f - (e.tokens : Int) ≤ (tokSum rest : Int) := by omega
      obtain ⟨pre, mid, post, hsplit, h1, h2, h3⟩ := ih (f - (e.tokens : Int)) hf' hle'
      refine ⟨e :: pre, mid, post, by rw [hsplit, List.cons_append], ?_, ?_, ?_⟩
      · rw [tokSum_cons]; push_cast; omega
      · rw [tokSum_cons]; push_cast; omega
      · simp only [findOldestRelevant, if_neg hbreak]
        exact h3

theorem tokSum_filter_le (p : UsageEntry → Bool) :
    ∀ l : List UsageEntry, tokSum (l.filter p) ≤ tokSum l := by
  intro l
  induction l with
  | nil => simp [tokSum]
  | cons e rest ih =>
    by_cases h : p e
    · rw [List.filter_cons_of_pos h, tokSum_cons, tokSum_cons]
      omega
    · rw [List.filter_cons_of_neg h, tokSum_cons]
      omega

theorem getRequiredDelay_of_can (B : Nat) (now : Int) (log : List UsageEntry)
    (t : Nat) (h : windowUsage now log + t ≤ B) :
    getRequiredDelay B now log t = 0 := by
  simp only [getRequiredDelay]
  rw [if_pos (by simpa [windowUsage] using h)]

theorem getRequiredDelay_of_not_can (B : Nat) (now : Int) (log : List UsageEntry)
    (t : Nat) (h : ¬ (windowUsage now log + t ≤ B)) :
    getRequiredDelay B now log t =
      max 0 (windowMs - (now - findOldestRelevant now
        ((windowUsage now log : Int) + t - B) (cleanOldEntries now log))) := by
  simp only [getRequiredDelay]
  rw [if_neg (by simpa [windowUsage] using h)]
  rfl

theorem getRequiredDelay_zero_iff (B : Nat) (now : Int) (log : List UsageEntry)
    (t : Nat) :
    getRequiredDelay B now log t = 0 ↔ canMakeRequest B now log t = true := by
  constructor
  · intro h0
    by_contra hcan
    have hgt : ¬ (windowUsage now log + t ≤ B) := by
      simpa [canMakeRequest] using hcan
    rw [getRequiredDelay_of_not_can B now log t hgt] at h0
    have husage : windowUsage now log = tokSum (cleanOldEntries now log) := rfl
    set cleaned := cleanOldEntries now log with hcleaned
    set f : Int := ((windowUsage now log : Int) + t - B) with hf
    have hfpos : 0 < f := by
      rw [hf]
      omega
    by_cases hcover : f ≤ (tokSum cleaned : Int)
    · obtain ⟨pre, mid, post, hsplit, _, _, hts⟩ :=
        findOldestRelevant_spec now cleaned f hfpos hcover
      rw [hts] at h0
      have hmem : mid ∈ cleaned := by
        rw [hsplit]
        exact List.mem_append_right _ (List.mem_cons_self _ _)
      have hwin : now - windowMs < mid.timestamp := cleanOldEntries_mem hmem
      have : (0 : Int) < windowMs - (now - mid.timestamp) := by omega
      omega
    · have hts := findOldestRelevant_of_gt_sum now cleaned f (by omega)
      rw [hts] at h0
      have : (windowMs : Int) = 60000 := rfl
      omega
  · intro hcan
    exact getRequiredDelay_of_can B now log t (by simpa [canMakeRequest] using hcan)

theorem conservation_scenario (B : Nat) (now : Int) (log : List UsageEntry)
    (hchain : log.Pairwise (fun a b => a.timestamp ≤ b.timestamp))
    (hin : ∀ e ∈ log, now - windowMs < e.timestamp ∧ e.timestamp ≤ now)
    (hsum : tokSum log = B) (hB : 1 ≤ B) :
    canMakeRequest B now log 1 = false ∧
    canMakeRequest B (now + getRequiredDelay B now log 1) log 1 = true := by
  have hclean : cleanOldEntries now log = log := by
    rw [cleanOldEntries, List.filter_eq_self]
    intro e he
    simpa using (hin e he).1
  have husage : windowUsage now log = B := by
    rw [windowUsage_eq_tokSum, hclean, hsum]
  have hfalse : canMakeRequest B now log 1 = false := by
    simp only [canMakeRequest, husage]
    simp
  refine ⟨hfalse, ?_⟩
  have hnotle : ¬ (windowUsage now log + 1 ≤ B) := by omega
  obtain ⟨pre, mid, post, hsplit, h1, h2, hts⟩ :=
    findOldestRelevant_spec now (cleanOldEntries now log)
      ((windowUsage now log : Int) + 1 - B)
      (by rw [husage]; omega)
      (by rw [husage, ← windowUsage_eq_tokSum, husage]; omega)
  rw [hclean] at hsplit
  have hpre0 : tokSum pre = 0 := by
    rw [husage] at h1
    omega
  have hmid1 : 1 ≤ mid.tokens := by
    rw [husage] at h2
    omega
  have hmem : mid ∈ log := by
    rw [hsplit]
    exact List.mem_append_right _ (List.mem_cons_self _ _)
  have hwin : now - windowMs < mid.timestamp := (hin mid hmem).1
  have hnow : mid.timestamp ≤ now := (hin mid hmem).2
  have hdelay : getRequiredDelay B now log 1 = windowMs - (now - mid.timestamp) := by
    rw [getRequiredDelay_of_not_can B now log 1 hnotle, Nat.cast_one, hts]
    exact max_eq_right (by omega)
  rw [hdelay]
  have hnow2 : now + (windowMs - (now - mid.timestamp)) = mid.timestamp + windowMs := by
    omega
  rw [hnow2]
  -- after waiting, the cleaning cutoff is exactly mid.timestamp
  have hcut : cleanOldEntries (mid.timestamp + windowMs) log =
      log.filter (fun e => mid.timestamp < e.timestamp) := by
    rw [cleanOldEntries]
    apply List.filter_congr
    intro x _
    have : mid.timestamp + windowMs - windowMs = mid.timestamp := by omega
    rw [this]
  have hprefil : pre.filter (fun e => mid.timestamp < e.timestamp) = [] := by
    rw [List.filter_eq_nil_iff]
    intro x hx
    have hxy : x.timestamp ≤ mid.timestamp := by
      rw [hsplit] at hchain
      have := (List.pairwise_append.mp hchain).2.2 x hx mid (List.mem_cons_self _ _)
      exact this
    simpa using hxy
  have hsum2 : tokSum pre + mid.tokens + tokSum post = B := by
    rw [← hsum, hsplit, tokSum_append, tokSum_cons]
    omega
  have husage2 : windowUsage (mid.timestamp + windowMs) log ≤ tokSum post := by
    rw [windowUsage_eq_tokSum, hcut, hsplit, List.filter_append,
      List.filter_cons_of_neg (by simp), hprefil, List.nil_append]
    exact tokSum_filter_le (fun e => mid.timestamp < e.timestamp) post
  simp only [canMakeRequest]
  have : windowUsage (mid.timestamp + windowMs) log + 1 ≤ B := by omega
  simpa using this

/-- **C4** (rate limiter conservation).  For a `TokenRateLimiter` with budget
`B` and 60-second window: (1) `canMakeRequest(t)` is true iff the windowed
usage plus `t` is at most `B`; (2) `getRequiredDelay(t)` is `0` exactly in
that case; (3) otherwise (provided the deficit is coverable, i.e. `t ≤ B`)
the delay is the time remaining until the oldest prefix of usage entries
whose token counts cover the deficit ages out of the window; and (4) after
recording usages summing to exactly `B` (all inside the window, timestamps
nondecreasing), `canMakeRequest(1)` is false, and at time
`now + getRequiredDelay(1)`, `canMakeRequest(1)` is true. -/
theorem tokenRateLimiter_conservation (B : Nat) (now : Int)
    (log : List UsageEntry) (t : Nat) :
    (canMakeRequest B now log t = true ↔ windowUsage now log + t ≤ B)
    ∧ (getRequiredDelay B now log t = 0 ↔ canMakeRequest B now log t = true)
    ∧ (canMakeRequest B now log t = false →
        (windowUsage now log : Int) + t - B ≤ (windowUsage now log : Int) →
        ∃ pre mid post,
          cleanOldEntries now log = pre ++ mid :: post ∧
          (tokSum pre : Int) < (windowUsage now log : Int) + t - B ∧
          (windowUsage now log : Int) + t - B ≤ (tokSum pre : Int) + mid.tokens ∧
          getRequiredDelay B now log t = windowMs - (now - mid.timestamp))
    ∧ (log.Pairwise (fun a b => a.timestamp ≤ b.timestamp) →
        (∀ e ∈ log, now - windowMs < e.timestamp ∧ e.timestamp ≤ now) →
        tokSum log = B → 1 ≤ B →
        canMakeRequest B now log 1 = false ∧
        canMakeRequest B (now + getRequiredDelay B now log 1) log 1 = true) := by
  refine ⟨by simp [canMakeRequest], getRequiredDelay_zero_iff B now log t, ?_, ?_⟩
  · intro hcan hcover
    have hgt : ¬ (windowUsage now log + t ≤ B) := by
      simpa [canMakeRequest] using hcan
    have hfpos : 0 < (windowUsage now log : Int) + t - B := by omega
    have hcover' : (windowUsage now log : Int) + t - B ≤
        (tokSum (cleanOldEntries now log) : Int) := by
      rw [← windowUsage_eq_tokSum]
      exact hcover
    obtain ⟨pre, mid, post, hsplit, h1, h2, hts⟩ :=
      findOldestRelevant_spec now (cleanOldEntries now log)
        ((windowUsage now log : Int) + t - B) hfpos hcover'
    refine ⟨pre, mid, post, hsplit, h1, h2, ?_⟩
    have hmem : mid ∈ cleanOldEntries now log := by
      rw [hsplit]
      exact List.mem_append_right _ (List.mem_cons_self _ _)
    have hwin : now - windowMs < mid.timestamp := cleanOldEntries_mem hmem
    rw [getRequiredDelay_of_not_can B now log t hgt, hts]
    exact max_eq_right (by omega)
  · intro hchain hin hsum hB
    exact conservation_scenario B now log hchain hin hsum hB

/-- Witness for C4: concrete instantiation (budget 10, one in-window usage
entry of 10 tokens) discharging every hypothesis of the theorem. -/
theorem tokenRateLimiter_conservation_witness :
    canMakeRequest 10 100000 [⟨50000, 10⟩] 1 = false ∧
    canMakeRequest 10 (100000 + getRequiredDelay 10 100000 [⟨50000, 10⟩] 1)
      [⟨50000, 10⟩] 1 = true :=
  (tokenRateLimiter_conservation 10 100000 [⟨50000, 10⟩] 1).2.2.2
    (by decide) (by decide) (by decide) (by decide)

/-! ## Data model (`src/lib/types/translation-group.ts`) -/

/-- `TranslationEntry`: `key`, `source`, `english`, plus dynamic columns
(`[columnName: string]: string`), embedded as an association list. -/
structure TranslationEntry where
  key : String
  source : String
  english : String
  extras : List (String × String) := []
  deriving Repr, DecidableEq

/-- `TranslationResult`: `{translation, category, reasoning}`. -/
structure TranslationResult where
  translation : String
  category : String
  reasoning : String
  deriving Repr, DecidableEq

/-- `Provider = 'openai' | 'anthropic' | 'google'`. -/
inductive Provider where
  | openai
  | anthropic
  | google
  deriving Repr, DecidableEq

/-- `TranslationGroup` (the fields the engine reads; the ephemeral
`status`/`progress`/`error` fields are reporting-only and omitted). -/
structure TranslationGroup where
  id : String
  name : String
  provider : Provider
  model : String
  systemPrompt : String
  userPrompt : String
  columnName : String
  deriving Repr, DecidableEq

/-! ## JavaScript `Map` embedding

A JS `Map` is an insertion-ordered association list.  `set` on an existing
key updates the value in place (keeping insertion order); `get` returns the
stored value; `values()` iterates in insertion order; `delete` removes the
entry. -/

/-- `Map.prototype.set`. -/
def jsMapSet {β : Type} (m : List (String × β)) (k : String) (v : β) :
    List (String × β) :=
  match m with
  | [] => [(k, v)]
  | (k', v') :: rest =>
    if k' = k then (k, v) :: rest else (k', v') :: jsMapSet rest k v

/-- `Map.prototype.get` (`undefined` becomes `none`). -/
def jsMapGet {β : Type} (m : List (String × β)) (k : String) : Option β :=
  match m with
  | [] => none
  | (k', v) :: rest => if k' = k then some v else jsMapGet rest k

/-- `Map.prototype.has`. -/
def jsMapHas {β : Type} (m : List (String × β)) (k : String) : Bool :=
  (jsMapGet m k).isSome

/-- `Map.prototype.delete` (returning the map). -/
def jsMapDelete {β : Type} (m : List (String × β)) (k : String) :
    List (String × β) :=
  match m with
  | [] => []
  | (k', v) :: rest =>
    if k' = k then rest else (k', v) :: jsMapDelete rest k

/-- `Array.from(map.values())`. -/
def jsMapValues {β : Type} (m : List (String × β)) : List β :=
  m.map Prod.snd

/-! ## Retry-merge (SSE route `POST`, previousResults merge block) -/

/-- The map `prevResultsMap` after
`previousResults.entries.forEach(e => prevResultsMap.set(e.key, e))`. -/
def buildEntryMap (entries : List TranslationEntry) :
    List (String × TranslationEntry) :=
  entries.foldl (fun m e => jsMapSet m e.key e) []

/-- The route's previousResults merge: build `prevResultsMap` from the prior
run's entries, overwrite with the new run's entries
(`results.entries.forEach(e => prevResultsMap.set(e.key, e))`), and return
`Array.from(prevResultsMap.values())`. -/
def mergeWithPreviousResults (previousEntries newEntries : List TranslationEntry) :
    List TranslationEntry :=
  jsMapValues (newEntries.foldl (fun m e => jsMapSet m e.key e)
    (buildEntryMap previousEntries))

/-! ### JS map lemmas -/

/-- `a ?? b` on options: first if present, else second. -/
def jsOrElse {β : Type} (a b : Option β) : Option β :=
  match a with
  | some x => some x
  | none => b

theorem jsOrElse_some {β : Type} (x : β) (b : Option β) :
    jsOrElse (some x) b = some x := rfl

theorem jsOrElse_none {β : Type} (b : Option β) : jsOrElse none b = b := rfl

theorem jsMapGet_set_self {β : Type} (m : List (String × β)) (k : String) (v : β) :
    jsMapGet (jsMapSet m k v) k = some v := by
  induction m with
  | nil => simp [jsMapSet, jsMapGet]
  | cons p rest ih =>
    obtain ⟨k', v'⟩ := p
    by_cases h : k' = k
    · simp [jsMapSet, jsMapGet, h]
    · simp [jsMapSet, jsMapGet, h, ih]

theorem jsMapGet_set_ne {β : Type} (m : List (String × β)) (k k₂ : String) (v : β)
    (h : k₂ ≠ k) : jsMapGet (jsMapSet m k v) k₂ = jsMapGet m k₂ := by
  have hne : ¬ (k = k₂) := fun hh => h hh.symm
  induction m with
  | nil => simp [jsMapSet, jsMapGet, hne]
  | cons p rest ih =>
    obtain ⟨k', v'⟩ := p
    by_cases hk : k' = k
    · have hk'2 : ¬ (k' = k₂) := fun hh => hne (hk.symm.trans hh)
      rw [jsMapSet, if_pos hk, jsMapGet, if_neg hne, jsMapGet, if_neg hk'2]
    · rw [jsMapSet, if_neg hk, jsMapGet, jsMapGet]
      by_cases hk2 : k' = k₂
      · rw [if_pos hk2, if_pos hk2]
      · rw [if_neg hk2, if_neg hk2, ih]

theorem jsMapGet_foldl_set {β : Type} (keyOf : β → String) :
    ∀ (l : List β) (m : List (String × β)) (k : String),
      jsMapGet (l.foldl (fun m e => jsMapSet m (keyOf e) e) m) k =
        jsOrElse (jsMapGet (l.foldl (fun m e => jsMapSet m (keyOf e) e) []) k)
          (jsMapGet m k) := by
  intro l
  induction l with
  | nil => intro m k; simp [jsMapGet, jsOrElse_none]
  | cons e rest ih =>
    intro m k
    simp only [List.foldl_cons]
    rw [ih (jsMapSet m (keyOf e) e) k, ih (jsMapSet [] (keyOf e) e) k]
    by_cases hk : k = keyOf e
    · rw [hk, jsMapGet_set_self, jsMapGet_set_self]
      cases jsMapGet (rest.foldl (fun m e => jsMapSet m (keyOf e) e) []) (keyOf e) with
      | none => simp [jsOrElse]
      | some x => simp [jsOrElse]
    · rw [jsMapGet_set_ne m (keyOf e) k e hk, jsMapGet_set_ne [] (keyOf e) k e hk]
      cases jsMapGet (rest.foldl (fun m e => jsMapSet m (keyOf e) e) []) k with
      | none => simp [jsMapGet, jsOrElse]
      | some x => simp [jsOrElse]

/-- Values in an entry map are stored under their own key. -/
def entryMapKeyed (m : List (String × TranslationEntry)) : Prop :=
  ∀ p ∈ m, p.2.key = p.1

theorem entryMapKeyed_set {m : List (String × TranslationEntry)}
    (h : entryMapKeyed m) (e : TranslationEntry) :
    entryMapKeyed (jsMapSet m e.key e) := by
  induction m with
  | nil =>
    intro p hp
    simp [jsMapSet] at hp
    simp [hp]
  | cons q rest ih =>
    obtain ⟨k', v'⟩ := q
    intro p hp
    by_cases hk : k' = e.key
    · rw [jsMapSet, if_pos hk] at hp
      rcases List.mem_cons.mp hp with hp | hp
      · simp [hp]
      · exact h p (List.mem_cons_of_mem _ hp)
    · rw [jsMapSet, if_neg hk] at hp
      rcases List.mem_cons.mp hp with hp | hp
      · subst hp; exact h (k', v') (List.mem_cons_self _ _)
      · exact ih (fun q hq => h q (List.mem_cons_of_mem _ hq)) p hp

theorem entryMapKeyed_foldl :
    ∀ (l : List TranslationEntry) (m : List (String × TranslationEntry)),
      entryMapKeyed m →
      entryMapKeyed (l.foldl (fun m e => jsMapSet m e.key e) m) := by
  intro l
  induction l with
  | nil => intro m h; exact h
  | cons e rest ih =>
    intro m h
    simp only [List.foldl_cons]
    exact ih _ (entryMapKeyed_set h e)

theorem find_values_eq_get (k : String) :
    ∀ (m : List (String × TranslationEntry)), entryMapKeyed m →
      (jsMapValues m).find? (fun e => e.key = k) = jsMapGet m k := by
  intro m
  induction m with
  | nil => intro _; rfl
  | cons p rest ih =>
    obtain ⟨k', v⟩ := p
    intro h
    have hv : v.key = k' := h (k', v) (List.mem_cons_self _ _)
    by_cases hk : k' = k
    · simp [jsMapValues, jsMapGet, List.find?, hv, hk]
    · have hvk : ¬ (v.key = k) := by rw [hv]; exact hk
      simp only [jsMapValues, List.map_cons, List.find?, jsMapGet]
      rw [if_neg hk]
      simp only [hvk, decide_False]
      exact ih (fun q hq => h q (List.mem_cons_of_mem _ hq))

/-- **C2** (retry-merge is last-write-wins by record key).  For the route's
previousResults merge block: looking up any key `k` in the merged entry list
returns the new run's entry for `k` when the new run's table has one, and
otherwise the prior table's entry for `k` (in particular, a new table
containing none of a key leaves that key's prior value unchanged). -/
theorem retryMerge_lastWriteWins
    (previousEntries newEntries : List TranslationEntry) (k : String) :
    (mergeWithPreviousResults previousEntries newEntries).find?
        (fun e => e.key = k) =
      jsOrElse (jsMapGet (buildEntryMap newEntries) k)
        (jsMapGet (buildEntryMap previousEntries) k) := by
  rw [mergeWithPreviousResults]
  have hkeyed : entryMapKeyed
      (newEntries.foldl (fun m e => jsMapSet m e.key e)
        (buildEntryMap previousEntries)) :=
    entryMapKeyed_foldl _ _
      (entryMapKeyed_foldl previousEntries []
        (fun p hp => absurd hp (List.not_mem_nil p)))
  rw [find_values_eq_get k _ hkeyed]
  exact jsMapGet_foldl_set (fun e => e.key) newEntries
    (buildEntryMap previousEntries) k

/-! ## Parallel translation engine (`src/lib/utils/parallel-translation-engine.ts`)

Network calls are embedded as an oracle
`translate : TranslationEntry → TranslationGroup → Except String TranslationResult`
(`.error msg` models a rejected promise carrying `msg`).  The engine's
concurrency (`Promise.all` waves, inter-wave delay, abort signal) does not
affect the content of the final result table — each task writes its own
`(group.id, entry.key)` slot — so waves are folded sequentially in batch
order. -/

/-- `ProviderBatchConfig` (`components/BatchSettings`). -/
structure ProviderBatchConfig where
  concurrentBatches : Nat
  batchSize : Nat
  delayMs : Nat
  deriving Repr, DecidableEq

/-- `ParallelEngineOptions` after the constructor fills defaults. -/
structure ParallelEngineOptions where
  openaiKey : String
  anthropicKey : String
  googleKey : String
  openai : ProviderBatchConfig
  anthropic : ProviderBatchConfig
  google : ProviderBatchConfig
  deriving Repr, DecidableEq

/-- The `apiKey` ternary of `processProviderGroups`. -/
def apiKeyFor (opts : ParallelEngineOptions) : Provider → String
  | .openai => opts.openaiKey
  | .anthropic => opts.anthropicKey
  | .google => opts.googleKey

/-- `this.options[provider]`. -/
def configFor (opts : ParallelEngineOptions) : Provider → ProviderBatchConfig
  | .openai => opts.openai
  | .anthropic => opts.anthropic
  | .google => opts.google

/-- One element of the `allTasks` queue: `{entry, group, groupIndex}`. -/
structure MixedTask where
  entry : TranslationEntry
  group : TranslationGroup
  groupIndex : Nat
  deriving Repr, DecidableEq

/-- `groups.forEach((group, groupIndex) => entries.forEach(entry =>
allTasks.push({entry, group, groupIndex})))`. -/
def collectAllTasks (entries : List TranslationEntry)
    (groups : List TranslationGroup) : List MixedTask :=
  groups.enum.flatMap (fun gi =>
    entries.map (fun e => ⟨e, gi.2, gi.1⟩))

/-- `createBatches`: slices of `batchSize` items (last may be smaller).  The
JS loop (`i += batchSize`) diverges for `batchSize = 0`; the engine configs
always use sizes `≥ 1`, and this embedding returns `[]` for size `0`. -/
def createBatches {α : Type} (items : List α) (batchSize : Nat) :
    List (List α) :=
  if h : batchSize = 0 then []
  else
    match items with
    | [] => []
    | x :: xs =>
      ((x :: xs).take batchSize) :: createBatches ((x :: xs).drop batchSize) batchSize
termination_by items.length
decreasing_by
  simp only [List.length_drop, List.length_cons]
  cases batchSize with
  | zero => exact absurd rfl h
  | succ n => omega

/-- The sentinel stored for a failed individual request:
`{translation: '[ERROR]', category: 'Error', reasoning: message}`. -/
def sentinelResult (msg : String) : TranslationResult :=
  ⟨"[ERROR]", "Error", msg⟩

/-- One task's outcome inside `processMixedBatch`: the provider response on
success, the sentinel with the error message on a rejected request. -/
def mixedTaskResult
    (translate : TranslationEntry → TranslationGroup → Except String TranslationResult)
    (t : MixedTask) : TranslationResult :=
  match translate t.entry t.group with
  | .ok r => r
  | .error msg => sentinelResult msg

/-- `processMixedBatch`: each task dispatched as its own request; index `i`
of the returned array holds task `i`'s result (sentinel on failure). -/
def processMixedBatch
    (translate : TranslationEntry → TranslationGroup → Except String TranslationResult)
    (batch : List MixedTask) : List TranslationResult :=
  batch.map (mixedTaskResult translate)

/-- A per-provider result table: `Map<groupId, Map<key, TranslationResult>>`. -/
abbrev GroupTable : Type := List (String × List (String × TranslationResult))

/-- `groupResults.set(group.id, new Map())` for each group: the initial table
(also what the missing-API-key branch returns for its `results`). -/
def initGroupResults (groups : List TranslationGroup) : GroupTable :=
  groups.foldl (fun m g => jsMapSet m g.id []) []

/-- The distribution step of `processProviderGroups`: look up the task's
group map and store the result under the entry's key (skipped if the group
id is absent, mirroring `if (groupResult)`). -/
def distributeResult (m : GroupTable) (t : MixedTask) (r : TranslationResult) :
    GroupTable :=
  match jsMapGet m t.group.id with
  | some inner => jsMapSet m t.group.id (jsMapSet inner t.entry.key r)
  | none => m

/-- `processProviderGroups`: with no API key, return a table mapping every
group id to an *empty* map; otherwise queue all (group × entry) tasks,
partition into batches of `batchSize`, run `processMixedBatch` on each and
distribute the results. -/
def processProviderGroups
    (translate : TranslationEntry → TranslationGroup → Except String TranslationResult)
    (entries : List TranslationEntry) (groups : List TranslationGroup)
    (apiKey : String) (batchSize : Nat) : GroupTable :=
  if apiKey = "" then initGroupResults groups
  else
    let allTasks := collectAllTasks entries groups
    let batches := createBatches allTasks batchSize
    batches.foldl
      (fun m batch =>
        ((batch.zip (processMixedBatch translate batch)).foldl
          (fun m pr => distributeResult m pr.1 pr.2) m))
      (initGroupResults groups)

/-- `this.groupByProvider(groups)[p]` (the `reduce` keeps input order). -/
def groupsByProvider (groups : List TranslationGroup) (p : Provider) :
    List TranslationGroup :=
  groups.filter (fun g => g.provider = p)

/-- `results.forEach((result, groupId) => allResults.set(groupId, result))`. -/
def setAllGroups (m : GroupTable) (src : GroupTable) : GroupTable :=
  src.foldl (fun m p => jsMapSet m p.1 p.2) m

/-- The `allResults` map built by `processGroups` before
`mergeTranslationResults`: run `processProviderGroups` for each provider
that has groups (in the order the provider promises are created) and union
the group-keyed tables. -/
def processGroupsTable
    (translate : TranslationEntry → TranslationGroup → Except String TranslationResult)
    (entries : List TranslationEntry) (groups : List TranslationGroup)
    (opts : ParallelEngineOptions) : GroupTable :=
  let step := fun (m : GroupTable) (p : Provider) =>
    let pgroups := groupsByProvider groups p
    if pgroups.isEmpty then m
    else setAllGroups m
      (processProviderGroups translate entries pgroups
        (apiKeyFor opts p) (configFor opts p).batchSize)
  step (step (step [] .openai) .anthropic) .google

/-- Two-level lookup in a result table. -/
def lookup2 (m : GroupTable) (gid key : String) : Option TranslationResult :=
  match jsMapGet m gid with
  | some inner => jsMapGet inner key
  | none => none

/-! ### Engine lemmas -/

theorem createBatches_join_aux {α : Type} (bs : Nat) (hbs : 1 ≤ bs) :
    ∀ (n : Nat) (items : List α), items.length ≤ n →
      (createBatches items bs).flatten = items := by
  intro n
  induction n with
  | zero =>
    intro items h
    match items with
    | [] => rw [createBatches]; simp [dif_neg (by omega : ¬ bs = 0)]
    | x :: xs => simp at h
  | succ n ih =>
    intro items h
    match items with
    | [] => rw [createBatches]; simp [dif_neg (by omega : ¬ bs = 0)]
    | x :: xs =>
      rw [createBatches, dif_neg (by omega : ¬ bs = 0)]
      simp only [List.flatten_cons]
      rw [ih ((x :: xs).drop bs)
        (by simp only [List.length_drop, List.length_cons] at h ⊢; omega)]
      exact List.take_append_drop bs (x :: xs)

theorem createBatches_join {α : Type} (bs : Nat) (hbs : 1 ≤ bs)
    (items : List α) : (createBatches items bs).flatten = items :=
  createBatches_join_aux bs hbs items.length items (Nat.le_refl _)

theorem zip_self_map {α β : Type} (f : α → β) (l : List α) :
    l.zip (l.map f) = l.map (fun a => (a, f a)) := by
  induction l with
  | nil => rfl
  | cons a rest ih => simp [List.zip_cons_cons, ih]

/-- Folding the per-batch distribution over all batches equals folding the
per-task distribution over the flat task list. -/
theorem processProviderGroups_flatten
    (translate : TranslationEntry → TranslationGroup → Except String TranslationResult)
    (entries : List TranslationEntry) (groups : List TranslationGroup)
    (apiKey : String) (bs : Nat) (hkey : apiKey ≠ "") (hbs : 1 ≤ bs) :
    processProviderGroups translate entries groups apiKey bs =
      (collectAllTasks entries groups).foldl
        (fun m t => distributeResult m t (mixedTaskResult translate t))
        (initGroupResults groups) := by
  rw [processProviderGroups, if_neg hkey]
  simp only
  have hfun : (fun (m : GroupTable) (batch : List MixedTask) =>
      ((batch.zip (processMixedBatch translate batch)).foldl
        (fun m pr => distributeResult m pr.1 pr.2) m)) =
      (fun (m : GroupTable) (batch : List MixedTask) =>
        batch.foldl (fun m t => distributeResult m t (mixedTaskResult translate t)) m) := by
    funext m batch
    rw [processMixedBatch, zip_self_map, List.foldl_map]
  rw [hfun, ← List.foldl_flatten,
    createBatches_join bs hbs (collectAllTasks entries groups)]

theorem distributeResult_domain {m : GroupTable} {gid : String}
    (h : (jsMapGet m gid).isSome) (t : MixedTask) (r : TranslationResult) :
    (jsMapGet (distributeResult m t r) gid).isSome := by
  rw [distributeResult]
  cases hg : jsMapGet m t.group.id with
  | none => exact h
  | some inner =>
    by_cases hid : gid = t.group.id
    · subst hid
      rw [jsMapGet_set_self]
      rfl
    · rw [jsMapGet_set_ne _ _ _ _ hid]
      exact h

/-- Coverage of a `(group id, key)` slot is preserved by any distribution
step. -/
theorem distributeResult_covered {m : GroupTable} {gid key : String}
    (h : ∃ inner, jsMapGet m gid = some inner ∧ (jsMapGet inner key).isSome)
    (t : MixedTask) (r : TranslationResult) :
    ∃ inner, jsMapGet (distributeResult m t r) gid = some inner ∧
      (jsMapGet inner key).isSome := by
  obtain ⟨inner, hget, hcov⟩ := h
  rw [distributeResult]
  cases hg : jsMapGet m t.group.id with
  | none => exact ⟨inner, hget, hcov⟩
  | some inner₂ =>
    by_cases hid : gid = t.group.id
    · subst hid
      rw [hget] at hg
      cases hg
      refine ⟨jsMapSet inner t.entry.key r, jsMapGet_set_self _ _ _, ?_⟩
      by_cases hk : key = t.entry.key
      · subst hk
        rw [jsMapGet_set_self]
        rfl
      · rw [jsMapGet_set_ne _ _ _ _ hk]
        exact hcov
    · rw [jsMapGet_set_ne _ _ _ _ hid]
      exact ⟨inner, hget, hcov⟩

theorem foldl_distribute_domain
    (step : MixedTask → TranslationResult)
    {gid : String} :
    ∀ (tasks : List MixedTask) (m : GroupTable),
      (jsMapGet m gid).isSome →
      (jsMapGet (tasks.foldl (fun m t => distributeResult m t (step t)) m) gid).isSome := by
  intro tasks
  induction tasks with
  | nil => intro m h; exact h
  | cons t rest ih =>
    intro m h
    exact ih _ (distributeResult_domain h t (step t))

theorem foldl_distribute_covered
    (step : MixedTask → TranslationResult)
    {gid key : String} :
    ∀ (tasks : List MixedTask) (m : GroupTable),
      (∃ inner, jsMapGet m gid = some inner ∧ (jsMapGet inner key).isSome) →
      ∃ inner,
        jsMapGet (tasks.foldl (fun m t => distributeResult m t (step t)) m) gid
          = some inner ∧ (jsMapGet inner key).isSome := by
  intro tasks
  induction tasks with
  | nil => intro m h; exact h
  | cons t rest ih =>
    intro m h
    exact ih _ (distributeResult_covered h t (step t))

theorem jsMapGet_none_iff {β : Type} :
    ∀ (m : List (String × β)) (k : String),
      jsMapGet m k = none ↔ k ∉ m.map Prod.fst := by
  intro m k
  induction m with
  | nil => simp [jsMapGet]
  | cons p rest ih =>
    obtain ⟨k', v⟩ := p
    by_cases h : k' = k
    · simp [jsMapGet, h]
    · simp only [jsMapGet, if_neg h, List.map_cons, List.mem_cons, ih]
      constructor
      · intro hh
        rintro (hh2 | hh2)
        · exact h hh2.symm
        · exact hh hh2
      · intro hh
        exact fun hmem => hh (Or.inr hmem)

theorem jsMapSet_keys_of_isSome {β : Type} :
    ∀ (m : List (String × β)) (k : String) (v : β),
      (jsMapGet m k).isSome →
      (jsMapSet m k v).map Prod.fst = m.map Prod.fst := by
  intro m k v
  induction m with
  | nil => intro h; simp [jsMapGet] at h
  | cons p rest ih =>
    obtain ⟨k', v'⟩ := p
    intro h
    by_cases hk : k' = k
    · rw [jsMapSet, if_pos hk]
      simp [hk]
    · rw [jsMapGet, if_neg hk] at h
      rw [jsMapSet, if_neg hk]
      simp [ih h]

theorem jsMapSet_mem_keys {β : Type} :
    ∀ (m : List (String × β)) (k x : String) (v : β),
      x ∈ (jsMapSet m k v).map Prod.fst →
      x ∈ m.map Prod.fst ∨ x = k := by
  intro m k x v
  induction m with
  | nil =>
    intro h
    simp [jsMapSet] at h
    exact Or.inr h
  | cons p rest ih =>
    obtain ⟨k', v'⟩ := p
    intro h
    by_cases hk : k' = k
    · rw [jsMapSet, if_pos hk] at h
      simp only [List.map_cons, List.mem_cons] at h ⊢
      rcases h with h | h
      · exact Or.inr h
      · exact Or.inl (Or.inr h)
    · rw [jsMapSet, if_neg hk] at h
      simp only [List.map_cons, List.mem_cons] at h ⊢
      rcases h with h | h
      · exact Or.inl (Or.inl h)
      · rcases ih h with h2 | h2
        · exact Or.inl (Or.inr h2)
        · exact Or.inr h2

theorem jsMapGet_isSome_set {β : Type} (m : List (String × β)) (k k₂ : String)
    (v : β) (h : (jsMapGet m k).isSome) :
    (jsMapGet (jsMapSet m k₂ v) k).isSome := by
  by_cases hk : k = k₂
  · subst hk
    rw [jsMapGet_set_self]
    rfl
  · rw [jsMapGet_set_ne _ _ _ _ hk]
    exact h

/-- `distributeResult` never changes the set of group ids in the table. -/
theorem distributeResult_keys (m : GroupTable) (t : MixedTask)
    (r : TranslationResult) :
    (distributeResult m t r).map Prod.fst = m.map Prod.fst := by
  rw [distributeResult]
  cases hg : jsMapGet m t.group.id with
  | none => rfl
  | some inner =>
    exact jsMapSet_keys_of_isSome m t.group.id _ (by rw [hg]; rfl)

theorem foldl_distribute_keys {γ : Type} (taskOf : γ → MixedTask)
    (resOf : γ → TranslationResult) :
    ∀ (l : List γ) (m : GroupTable),
      ((l.foldl (fun m x => distributeResult m (taskOf x) (resOf x)) m).map
        Prod.fst) = m.map Prod.fst := by
  intro l
  induction l with
  | nil => intro m; rfl
  | cons x rest ih =>
    intro m
    rw [List.foldl_cons, ih, distributeResult_keys]

theorem jsMapSet_keys_nodup {β : Type} (m : List (String × β)) (k : String)
    (v : β) (h : (m.map Prod.fst).Nodup) :
    ((jsMapSet m k v).map Prod.fst).Nodup := by
  cases hg : jsMapGet m k with
  | some w =>
    rw [jsMapSet_keys_of_isSome m k v (by rw [hg]; rfl)]
    exact h
  | none =>
    have hnot : k ∉ m.map Prod.fst := (jsMapGet_none_iff m k).mp hg
    -- when the key is absent, set appends it at the end
    have happ : (jsMapSet m k v).map Prod.fst = m.map Prod.fst ++ [k] := by
      clear h
      induction m with
      | nil => rfl
      | cons p rest ih =>
        obtain ⟨k', v'⟩ := p
        rw [jsMapGet, ] at hg
        by_cases hk : k' = k
        · rw [if_pos hk] at hg
          cases hg
        · rw [if_neg hk] at hg
          have hnot' : k ∉ rest.map Prod.fst := (jsMapGet_none_iff rest k).mp hg
          rw [jsMapSet, if_neg hk]
          simp only [List.map_cons, List.cons_append, List.cons.injEq]
          exact ⟨trivial, ih hg hnot'⟩
    rw [happ]
    simp only [List.nodup_append, List.nodup_cons]
    refine ⟨h, by simp, ?_⟩
    intro x hx
    simp only [List.mem_singleton]
    intro hxk
    exact hnot (hxk ▸ hx)

theorem initGroupResults_aux_nodup :
    ∀ (l : List TranslationGroup) (m : GroupTable),
      (m.map Prod.fst).Nodup →
      (((l.foldl (fun m g => jsMapSet m g.id []) m)).map Prod.fst).Nodup := by
  intro l
  induction l with
  | nil => intro m h; exact h
  | cons g rest ih =>
    intro m h
    exact ih _ (jsMapSet_keys_nodup m g.id [] h)

theorem initGroupResults_nodup (groups : List TranslationGroup) :
    ((initGroupResults groups).map Prod.fst).Nodup :=
  initGroupResults_aux_nodup groups [] (by simp)

theorem initGroupResults_aux_domain :
    ∀ (l : List TranslationGroup) (m : GroupTable) (g : TranslationGroup),
      g ∈ l → (jsMapGet (l.foldl (fun m g => jsMapSet m g.id []) m) g.id).isSome := by
  intro l
  induction l with
  | nil => intro m g h; cases h
  | cons g' rest ih =>
    intro m g h
    rcases List.mem_cons.mp h with h | h
    · subst h
      rw [List.foldl_cons]
      -- after setting g.id the slot exists; later sets keep it
      have hbase : (jsMapGet (jsMapSet m g.id []) g.id).isSome := by
        rw [jsMapGet_set_self]; rfl
      clear ih h
      generalize jsMapSet m g.id [] = m₂ at hbase ⊢
      induction rest generalizing m₂ with
      | nil => exact hbase
      | cons g₂ rest₂ ih₂ =>
        rw [List.foldl_cons]
        exact ih₂ _ (jsMapGet_isSome_set _ _ _ _ hbase)
    · rw [List.foldl_cons]
      exact ih _ g h

theorem initGroupResults_domain {groups : List TranslationGroup}
    {g : TranslationGroup} (hg : g ∈ groups) :
    (jsMapGet (initGroupResults groups) g.id).isSome :=
  initGroupResults_aux_domain groups [] g hg

theorem initGroupResults_aux_keys :
    ∀ (l : List TranslationGroup) (m : GroupTable) (x : String),
      x ∈ ((l.foldl (fun m g => jsMapSet m g.id []) m)).map Prod.fst →
      x ∈ m.map Prod.fst ∨ ∃ g' ∈ l, g'.id = x := by
  intro l
  induction l with
  | nil => intro m x h; exact Or.inl h
  | cons g rest ih =>
    intro m x h
    rw [List.foldl_cons] at h
    rcases ih _ x h with h2 | h2
    · rcases jsMapSet_mem_keys m g.id x [] h2 with h3 | h3
      · exact Or.inl h3
      · exact Or.inr ⟨g, List.mem_cons_self _ _, h3.symm⟩
    · obtain ⟨g', hg', hid⟩ := h2
      exact Or.inr ⟨g', List.mem_cons_of_mem _ hg', hid⟩

theorem initGroupResults_keys {groups : List TranslationGroup} {x : String}
    (h : x ∈ (initGroupResults groups).map Prod.fst) :
    ∃ g' ∈ groups, g'.id = x := by
  rcases initGroupResults_aux_keys groups [] x h with h2 | h2
  · simp at h2
  · exact h2

theorem collectAllTasks_mem_aux (entries : List TranslationEntry)
    (e : TranslationEntry) (he : e ∈ entries) :
    ∀ (l : List TranslationGroup) (n : Nat) (g : TranslationGroup), g ∈ l →
      ∃ gi, (MixedTask.mk e g gi) ∈
        (l.enumFrom n).flatMap (fun gi =>
          entries.map (fun e => ⟨e, gi.2, gi.1⟩)) := by
  intro l
  induction l with
  | nil => intro n g h; cases h
  | cons g' rest ih =>
    intro n g h
    rcases List.mem_cons.mp h with h | h
    · subst h
      refine ⟨n, ?_⟩
      apply List.mem_flatMap.mpr
      refine ⟨(n, g), ?_, ?_⟩
      · simp [List.enumFrom]
      · exact List.mem_map.mpr ⟨e, he, rfl⟩
    · obtain ⟨gi, hgi⟩ := ih (n + 1) g h
      refine ⟨gi, ?_⟩
      apply List.mem_flatMap.mpr
      obtain ⟨a, ha, hx⟩ := List.mem_flatMap.mp hgi
      exact ⟨a, by simp [List.enumFrom]; right; exact ha, hx⟩

theorem collectAllTasks_mem {entries : List TranslationEntry}
    {groups : List TranslationGroup} {e : TranslationEntry}
    {g : TranslationGroup} (he : e ∈ entries) (hg : g ∈ groups) :
    ∃ gi, (MixedTask.mk e g gi) ∈ collectAllTasks entries groups :=
  collectAllTasks_mem_aux entries e he groups 0 g hg

/-- With an API key and a positive batch size, the per-provider table has an
entry for every `(group, entry)` pair of its input. -/
theorem processProviderGroups_covers
    (translate : TranslationEntry → TranslationGroup → Except String TranslationResult)
    (entries : List TranslationEntry) (groups : List TranslationGroup)
    (apiKey : String) (bs : Nat) (hkey : apiKey ≠ "") (hbs : 1 ≤ bs)
    {e : TranslationEntry} {g : TranslationGroup}
    (he : e ∈ entries) (hg : g ∈ groups) :
    ∃ inner,
      jsMapGet (processProviderGroups translate entries groups apiKey bs) g.id
        = some inner ∧ (jsMapGet inner e.key).isSome := by
  rw [processProviderGroups_flatten translate entries groups apiKey bs hkey hbs]
  obtain ⟨gi, hmem⟩ := collectAllTasks_mem he hg
  obtain ⟨l1, l2, hsplit⟩ := List.append_of_mem hmem
  rw [hsplit, List.foldl_append, List.foldl_cons]
  set M := l1.foldl (fun m t => distributeResult m t (mixedTaskResult translate t))
    (initGroupResults groups) with hM
  have hdom : (jsMapGet M g.id).isSome := by
    rw [hM]
    exact foldl_distribute_domain (mixedTaskResult translate) l1 _
      (initGroupResults_domain hg)
  obtain ⟨inner, hinner⟩ := Option.isSome_iff_exists.mp hdom
  set R := mixedTaskResult translate (MixedTask.mk e g gi) with hR
  have hstep : distributeResult M (MixedTask.mk e g gi) R =
      jsMapSet M g.id (jsMapSet inner e.key R) := by
    show (match jsMapGet M g.id with
      | some inner₂ => jsMapSet M g.id (jsMapSet inner₂ e.key R)
      | none => M) = jsMapSet M g.id (jsMapSet inner e.key R)
    rw [hinner]
  rw [hstep]
  apply foldl_distribute_covered (mixedTaskResult translate) l2
  refine ⟨jsMapSet inner e.key R, jsMapGet_set_self _ _ _, ?_⟩
  rw [jsMapGet_set_self]
  rfl

theorem foldl_batches_keys
    (translate : TranslationEntry → TranslationGroup → Except String TranslationResult) :
    ∀ (batches : List (List MixedTask)) (m : GroupTable),
      ((batches.foldl
        (fun m batch =>
          ((batch.zip (processMixedBatch translate batch)).foldl
            (fun m pr => distributeResult m pr.1 pr.2) m)) m).map Prod.fst)
        = m.map Prod.fst := by
  intro batches
  induction batches with
  | nil => intro m; rfl
  | cons b rest ih =>
    intro m
    rw [List.foldl_cons, ih, foldl_distribute_keys Prod.fst Prod.snd]

theorem processProviderGroups_keys
    (translate : TranslationEntry → TranslationGroup → Except String TranslationResult)
    (entries : List TranslationEntry) (groups : List TranslationGroup)
    (apiKey : String) (bs : Nat) {x : String}
    (hx : x ∈ (processProviderGroups translate entries groups apiKey bs).map
      Prod.fst) :
    ∃ g' ∈ groups, g'.id = x := by
  rw [processProviderGroups] at hx
  by_cases hkey : apiKey = ""
  · rw [if_pos hkey] at hx
    exact initGroupResults_keys hx
  · rw [if_neg hkey] at hx
    simp only at hx
    rw [foldl_batches_keys] at hx
    exact initGroupResults_keys hx

theorem processProviderGroups_nodup
    (translate : TranslationEntry → TranslationGroup → Except String TranslationResult)
    (entries : List TranslationEntry) (groups : List TranslationGroup)
    (apiKey : String) (bs : Nat) :
    ((processProviderGroups translate entries groups apiKey bs).map
      Prod.fst).Nodup := by
  rw [processProviderGroups]
  by_cases hkey : apiKey = ""
  · rw [if_pos hkey]
    exact initGroupResults_nodup groups
  · rw [if_neg hkey]
    simp only
    rw [foldl_batches_keys]
    exact initGroupResults_nodup groups

theorem setAllGroups_get_disjoint {src : GroupTable} {gid : String}
    (h : ∀ p ∈ src, p.1 ≠ gid) :
    ∀ (m : GroupTable), jsMapGet (setAllGroups m src) gid = jsMapGet m gid := by
  induction src with
  | nil => intro m; rfl
  | cons p rest ih =>
    intro m
    rw [setAllGroups, List.foldl_cons]
    have h1 : jsMapGet (jsMapSet m p.1 p.2) gid = jsMapGet m gid :=
      jsMapGet_set_ne m p.1 gid p.2
        (fun hh => h p (List.mem_cons_self _ _) hh.symm)
    have := ih (fun q hq => h q (List.mem_cons_of_mem _ hq)) (jsMapSet m p.1 p.2)
    rw [setAllGroups] at this
    rw [this, h1]

theorem setAllGroups_get_of_nodup {src : GroupTable} {gid : String}
    {inner : List (String × TranslationResult)}
    (hnd : (src.map Prod.fst).Nodup) (hget : jsMapGet src gid = some inner) :
    ∀ (m : GroupTable), jsMapGet (setAllGroups m src) gid = some inner := by
  induction src with
  | nil => intro m; cases hget
  | cons p rest ih =>
    intro m
    obtain ⟨k', v⟩ := p
    rw [setAllGroups, List.foldl_cons]
    simp only [List.map_cons, List.nodup_cons] at hnd
    by_cases hk : k' = gid
    · rw [jsMapGet, if_pos hk] at hget
      cases hget
      have hdisj : ∀ q ∈ rest, q.1 ≠ gid := by
        intro q hq hcontra
        exact hnd.1 (hk ▸ hcontra ▸ List.mem_map_of_mem Prod.fst hq)
      have := setAllGroups_get_disjoint hdisj (jsMapSet m k' inner)
      rw [setAllGroups] at this
      rw [this, hk, jsMapGet_set_self]
    · rw [jsMapGet, if_neg hk] at hget
      have := ih hnd.2 hget (jsMapSet m k' v)
      rw [setAllGroups] at this
      rw [this]

/-- Amended C1: sentinel completeness holds when every provider that owns a
group has a non-empty API key (group ids unique per the data model, batch
sizes positive). -/
theorem sentinelCompleteness_amended
    (translate : TranslationEntry → TranslationGroup → Except String TranslationResult)
    (entries : List TranslationEntry) (groups : List TranslationGroup)
    (opts : ParallelEngineOptions)
    (hid : (groups.map (fun g => g.id)).Nodup)
    (hkeys : ∀ g ∈ groups, apiKeyFor opts g.provider ≠ "")
    (hbs : ∀ p : Provider, 1 ≤ (configFor opts p).batchSize) :
    ∀ e ∈ entries, ∀ g ∈ groups, ∃ r,
      lookup2 (processGroupsTable translate entries groups opts) g.id e.key
        = some r := by
  intro e he g hg
  have hgp : g ∈ groupsByProvider groups g.provider :=
    List.mem_filter.mpr ⟨hg, by simp⟩
  obtain ⟨inner, hcov, hcovkey⟩ :=
    processProviderGroups_covers translate entries
      (groupsByProvider groups g.provider) (apiKeyFor opts g.provider)
      (configFor opts g.provider).batchSize (hkeys g hg) (hbs g.provider) he hgp
  have hnodup := processProviderGroups_nodup translate entries
    (groupsByProvider groups g.provider) (apiKeyFor opts g.provider)
    (configFor opts g.provider).batchSize
  have hown : ∀ m : GroupTable,
      jsMapGet (if (groupsByProvider groups g.provider).isEmpty then m
        else setAllGroups m (processProviderGroups translate entries
          (groupsByProvider groups g.provider) (apiKeyFor opts g.provider)
          (configFor opts g.provider).batchSize)) g.id = some inner := by
    intro m
    rw [if_neg (by
      rw [List.isEmpty_iff]
      intro hh
      rw [hh] at hgp
      cases hgp)]
    exact setAllGroups_get_of_nodup hnodup hcov m
  have hskip : ∀ (q : Provider), q ≠ g.provider → ∀ m : GroupTable,
      jsMapGet (if (groupsByProvider groups q).isEmpty then m
        else setAllGroups m (processProviderGroups translate entries
          (groupsByProvider groups q) (apiKeyFor opts q)
          (configFor opts q).batchSize)) g.id = jsMapGet m g.id := by
    intro q hq m
    by_cases hemp : (groupsByProvider groups q).isEmpty
    · rw [if_pos hemp]
    · rw [if_neg hemp]
      apply setAllGroups_get_disjoint
      intro pr hpr hcontra
      have hx := List.mem_map_of_mem Prod.fst hpr
      obtain ⟨g', hg'q, hid'⟩ :=
        processProviderGroups_keys translate entries _ _ _ hx
      have hg'mem : g' ∈ groups := List.mem_of_mem_filter hg'q
      have hprov : g'.provider = q := by
        have := List.of_mem_filter hg'q
        simpa using this
      have hgg : g' = g :=
        List.inj_on_of_nodup_map hid hg'mem hg (by rw [hid', hcontra])
      rw [hgg] at hprov
      exact hq hprov.symm
  rw [processGroupsTable]
  simp only
  rw [lookup2]
  cases hp : g.provider with
  | openai =>
    rw [hp] at hown hskip
    have hfinal := hown []
    rw [← hskip .anthropic (by decide) _] at hfinal
    rw [← hskip .google (by decide) _] at hfinal
    rw [hfinal]
    exact Option.isSome_iff_exists.mp hcovkey
  | anthropic =>
    rw [hp] at hown hskip
    have hfinal := hown (if (groupsByProvider groups Provider.openai).isEmpty
      then ([] : GroupTable)
      else setAllGroups [] (processProviderGroups translate entries
        (groupsByProvider groups Provider.openai) (apiKeyFor opts Provider.openai)
        (configFor opts Provider.openai).batchSize))
    rw [← hskip .google (by decide) _] at hfinal
    rw [hfinal]
    exact Option.isSome_iff_exists.mp hcovkey
  | google =>
    rw [hp] at hown hskip
    have hfinal := hown (
      if (groupsByProvider groups Provider.anthropic).isEmpty
      then (if (groupsByProvider groups Provider.openai).isEmpty
        then ([] : GroupTable)
        else setAllGroups [] (processProviderGroups translate entries
          (groupsByProvider groups Provider.openai)
          (apiKeyFor opts Provider.openai)
          (configFor opts Provider.openai).batchSize))
      else setAllGroups
        (if (groupsByProvider groups Provider.openai).isEmpty
          then ([] : GroupTable)
          else setAllGroups [] (processProviderGroups translate entries
            (groupsByProvider groups Provider.openai)
            (apiKeyFor opts Provider.openai)
            (configFor opts Provider.openai).batchSize))
        (processProviderGroups translate entries
          (groupsByProvider groups Provider.anthropic)
          (apiKeyFor opts Provider.anthropic)
          (configFor opts Provider.anthropic).batchSize))
    rw [hfinal]
    exact Option.isSome_iff_exists.mp hcovkey

/-- Oracle whose requests all succeed (content irrelevant for C1). -/
def cexTranslateOk :
    TranslationEntry → TranslationGroup → Except String TranslationResult :=
  fun _ _ => .ok ⟨"नमस्ते", "UI", "ok"⟩

/-- Oracle whose requests all fail (models a provider/network error). -/
def cexTranslateFail :
    TranslationEntry → TranslationGroup → Except String TranslationResult :=
  fun _ _ => .error "network error"

def cexEntry : TranslationEntry :=
  { key := "k1", source := "s1", english := "hello" }

def cexGroup : TranslationGroup :=
  { id := "g1", name := "Hindi", provider := .anthropic,
    model := "claude-3-5-sonnet-20241022", systemPrompt := "sys",
    userPrompt := "Translate to Hindi", columnName := "Hindi Translation" }

/-- Engine options with the Anthropic key missing (empty string). -/
def cexOptsNoKey : ParallelEngineOptions :=
  { openaiKey := "sk-o", anthropicKey := "", googleKey := "sk-g",
    openai := ⟨3, 5, 1000⟩, anthropic := ⟨2, 5, 2000⟩, google := ⟨3, 5, 1000⟩ }

/-- Engine options with all keys configured. -/
def cexOptsWithKey : ParallelEngineOptions :=
  { openaiKey := "sk-o", anthropicKey := "sk-a", googleKey := "sk-g",
    openai := ⟨3, 5, 1000⟩, anthropic := ⟨2, 5, 2000⟩, google := ⟨3, 5, 1000⟩ }

/-- **C1** (counterexample).  With one record and one Anthropic group but no
Anthropic API key, `processProviderGroups` returns an *empty* map for the
group (`results.set(group.id, new Map())`), so the run's result table has NO
entry for the (record, group) pair — the claim's "regardless of whether …
a provider's API key was missing" is false: the failure is represented by an
absent entry, not a sentinel. -/
theorem sentinelCompleteness_missingKey_cex :
    processGroupsTable cexTranslateOk [cexEntry] [cexGroup] cexOptsNoKey
      = [("g1", [])] ∧
    lookup2 (processGroupsTable cexTranslateOk [cexEntry] [cexGroup] cexOptsNoKey)
      cexGroup.id cexEntry.key = none := by
  constructor <;> rfl

/-- Witness for the amended C1: with keys configured, even a run whose every
provider request fails still has an entry for the (record, group) pair. -/
theorem sentinelCompleteness_amended_witness :
    ∃ r, lookup2
      (processGroupsTable cexTranslateFail [cexEntry] [cexGroup] cexOptsWithKey)
      cexGroup.id cexEntry.key = some r :=
  sentinelCompleteness_amended cexTranslateFail [cexEntry] [cexGroup]
    cexOptsWithKey (by decide) (by decide) (fun p => by cases p <;> decide)
    cexEntry (by decide) cexGroup (by decide)

/-! ## JS string primitives -/

/-- Whitespace for `String.prototype.trim` (ASCII whitespace plus NBSP and
BOM). -/
def isJsWhitespace (c : Char) : Bool :=
  c = ' ' || c = '\t' || c = '\n' || c = '\r' ||
  c = Char.ofNat 11 || c = Char.ofNat 12 || c = Char.ofNat 160 ||
  c = Char.ofNat 65279

/-- `trim()` on a character list. -/
def jsTrimChars (l : List Char) : List Char :=
  ((l.dropWhile isJsWhitespace).reverse.dropWhile isJsWhitespace).reverse

/-- `String.prototype.trim`. -/
def jsTrim (s : String) : String := ⟨jsTrimChars s.data⟩

/-- `String.prototype.toLowerCase` (ASCII case folding). -/
def jsToLower (s : String) : String := ⟨s.data.map Char.toLower⟩

/-- Does `l` contain `sub` as a contiguous run? -/
def hasInfix : List Char → List Char → Bool
  | l, sub =>
    sub.isPrefixOf l ||
      (match l with
       | [] => false
       | _ :: rest => hasInfix rest sub)

/-- `String.prototype.includes`. -/
def jsIncludes (s sub : String) : Bool := hasInfix s.data sub.data

/-! ## Anthropic provider (`src/lib/providers/anthropic.ts`) -/

/-- `value.replace(/"/g, '""')`. -/
def doubleQuotes : List Char → List Char
  | [] => []
  | c :: rest =>
    if c = '"' then '"' :: '"' :: doubleQuotes rest else c :: doubleQuotes rest

/-- Char-level body of `escapeCSV`: quote the field iff it contains a comma,
newline or double quote, doubling embedded quotes. -/
def escapeChars (value : List Char) : List Char :=
  if value.contains ',' || value.contains '\n' || value.contains '"' then
    '"' :: doubleQuotes value ++ ['"']
  else value

/-- `AnthropicProvider.escapeCSV`. -/
def escapeCSV (value : String) : String := ⟨escapeChars value.data⟩

/-- The character loop of `AnthropicProvider.parseCSVLine`: `inQuotes` state,
`cur` accumulates the current field (reversed).  Inside quotes, a doubled
quote is an escaped quote (consume both, emit one); a single quote closes the
field; a comma outside quotes ends the field; the final field is always
pushed. -/
def parseCSVLineAux : Bool → List Char → List Char → List (List Char)
  | true, cur, '"' :: '"' :: rest₂ => parseCSVLineAux true ('"' :: cur) rest₂
  | true, cur, '"' :: rest => parseCSVLineAux false cur rest
  | true, cur, c :: rest => parseCSVLineAux true (c :: cur) rest
  | false, cur, '"' :: rest => parseCSVLineAux true cur rest
  | false, cur, ',' :: rest => cur.reverse :: parseCSVLineAux false [] rest
  | false, cur, c :: rest => parseCSVLineAux false (c :: cur) rest
  | _, cur, [] => [cur.reverse]

/-- `AnthropicProvider.parseCSVLine` (`fields.map(f => f.trim())` at the
end). -/
def parseCSVLine (line : String) : List String :=
  ((parseCSVLineAux false [] line.data).map jsTrimChars).map
    (fun l => String.mk l)

/-- `[escapeCSV(a), escapeCSV(b), ...].join(',')` at char level. -/
def joinCommaChars : List (List Char) → List Char
  | [] => []
  | [f] => f
  | f :: rest => f ++ ',' :: joinCommaChars rest

/-- Joining a list of fields with commas (`template`/`join(',')` as used to
build the CSV rows). -/
def joinComma (fields : List String) : String :=
  ⟨joinCommaChars (fields.map String.data)⟩

/-! ### CSV round-trip lemmas (C10) -/

theorem parseCSVLineAux_nil (inQ : Bool) (cur : List Char) :
    parseCSVLineAux inQ cur [] = [cur.reverse] := by
  cases inQ <;> rfl

theorem parseCSVLineAux_false_quote (cur rest : List Char) :
    parseCSVLineAux false cur ('"' :: rest) = parseCSVLineAux true cur rest :=
  rfl

theorem parseCSVLineAux_false_comma (cur rest : List Char) :
    parseCSVLineAux false cur (',' :: rest) =
      cur.reverse :: parseCSVLineAux false [] rest := rfl

theorem parseCSVLineAux_false_other (cur rest : List Char) (c : Char)
    (h1 : ¬ c = '"') (h2 : ¬ c = ',') :
    parseCSVLineAux false cur (c :: rest) =
      parseCSVLineAux false (c :: cur) rest := by
  rw [parseCSVLineAux.eq_def]
  split <;> simp_all

theorem parseCSVLineAux_true_escq (cur rest₂ : List Char) :
    parseCSVLineAux true cur ('"' :: '"' :: rest₂) =
      parseCSVLineAux true ('"' :: cur) rest₂ := rfl

theorem parseCSVLineAux_true_closeq (cur rest₂ : List Char) (c₂ : Char)
    (h2 : ¬ c₂ = '"') :
    parseCSVLineAux true cur ('"' :: c₂ :: rest₂) =
      parseCSVLineAux false cur (c₂ :: rest₂) := by
  rw [parseCSVLineAux.eq_def]
  split <;> (try simp_all)
  rename_i hne heq
  obtain ⟨heq1, heq2⟩ := heq
  exact absurd heq1.symm hne

theorem parseCSVLineAux_true_other (cur rest : List Char) (c : Char)
    (h1 : ¬ c = '"') :
    parseCSVLineAux true cur (c :: rest) =
      parseCSVLineAux true (c :: cur) rest := by
  rw [parseCSVLineAux.eq_def]
  split <;> simp_all

theorem parseCSVLineAux_unquoted (f : List Char)
    (hf : ∀ c ∈ f, c ≠ '"' ∧ c ≠ ',') :
    ∀ (cur rest : List Char),
      parseCSVLineAux false cur (f ++ rest) =
        parseCSVLineAux false (f.reverse ++ cur) rest := by
  induction f with
  | nil => intro cur rest; simp
  | cons c f₂ ih =>
    intro cur rest
    have hc := hf c (List.mem_cons_self _ _)
    rw [List.cons_append, parseCSVLineAux_false_other cur _ c hc.1 hc.2]
    rw [ih (fun x hx => hf x (List.mem_cons_of_mem _ hx)) (c :: cur) rest]
    congr 1
    simp

theorem parseCSVLineAux_quoted (f : List Char) :
    ∀ (cur rest : List Char),
      (∀ c₂ rest₂, rest = c₂ :: rest₂ → c₂ ≠ '"') →
      parseCSVLineAux true cur (doubleQuotes f ++ '"' :: rest) =
        parseCSVLineAux false (f.reverse ++ cur) rest := by
  induction f with
  | nil =>
    intro cur rest hrest
    rw [doubleQuotes, List.nil_append]
    match rest with
    | [] => rfl
    | c₂ :: rest₂ =>
      rw [parseCSVLineAux_true_closeq cur rest₂ c₂ (hrest c₂ rest₂ rfl)]
      rfl
  | cons c f₂ ih =>
    intro cur rest hrest
    by_cases hc : c = '"'
    · subst hc
      rw [doubleQuotes, if_pos rfl]
      rw [List.cons_append, List.cons_append]
      rw [parseCSVLineAux_true_escq]
      rw [ih ('"' :: cur) rest hrest]
      congr 1
      simp
    · rw [doubleQuotes, if_neg hc]
      rw [List.cons_append]
      rw [parseCSVLineAux_true_other cur _ c hc]
      rw [ih (c :: cur) rest hrest]
      congr 1
      simp

theorem escapeChars_of_safe {f : List Char}
    (h : (f.contains ',' || f.contains '\n' || f.contains '"') = false) :
    escapeChars f = f := by
  rw [escapeChars, if_neg (by rw [h]; simp)]

theorem escapeChars_of_quoted {f : List Char}
    (h : (f.contains ',' || f.contains '\n' || f.contains '"') = true) :
    escapeChars f = '"' :: doubleQuotes f ++ ['"'] := by
  rw [escapeChars, if_pos h]

theorem safe_fields {f : List Char}
    (hq : (f.contains ',' || f.contains '\n' || f.contains '"') = false) :
    ∀ c ∈ f, c ≠ '"' ∧ c ≠ ',' := by
  intro c hc
  constructor
  · intro hcx
    subst hcx
    have hm : f.contains '"' = true := List.elem_iff.mpr hc
    rw [hm] at hq
    simp at hq
  · intro hcx
    subst hcx
    have hm : f.contains ',' = true := List.elem_iff.mpr hc
    rw [hm] at hq
    simp at hq

theorem parse_join_chars :
    ∀ (fs : List (List Char)) (f : List Char),
      parseCSVLineAux false [] (joinCommaChars ((f :: fs).map escapeChars))
        = f :: fs := by
  intro fs
  induction fs with
  | nil =>
    intro f
    rw [List.map_cons, List.map_nil]
    rw [joinCommaChars]
    by_cases hq : (f.contains ',' || f.contains '\n' || f.contains '"') = true
    · rw [escapeChars_of_quoted hq]
      show parseCSVLineAux false [] (('"' :: doubleQuotes f) ++ ['"']) = [f]
      rw [List.cons_append, parseCSVLineAux_false_quote]
      rw [show doubleQuotes f ++ ['"'] = doubleQuotes f ++ '"' :: [] from rfl]
      rw [parseCSVLineAux_quoted f [] [] (fun _ _ h => by cases h)]
      rw [parseCSVLineAux_nil]
      simp
    · rw [escapeChars_of_safe (by simpa using hq)]
      rw [show f = f ++ [] by simp]
      rw [parseCSVLineAux_unquoted f (safe_fields (by simpa using hq)) [] []]
      rw [parseCSVLineAux_nil]
      simp
  | cons g fs₂ ih =>
    intro f
    rw [List.map_cons]
    rw [show joinCommaChars (escapeChars f :: (g :: fs₂).map escapeChars)
      = escapeChars f ++ ',' :: joinCommaChars ((g :: fs₂).map escapeChars) by
        rw [List.map_cons]; rfl]
    by_cases hq : (f.contains ',' || f.contains '\n' || f.contains '"') = true
    · rw [escapeChars_of_quoted hq]
      rw [List.append_assoc, List.singleton_append, List.cons_append]
      rw [parseCSVLineAux_false_quote]
      rw [parseCSVLineAux_quoted f [] _ (fun c₂ rest₂ hh => by
        cases hh; decide)]
      rw [parseCSVLineAux_false_comma]
      rw [ih g]
      simp
    · rw [escapeChars_of_safe (by simpa using hq)]
      rw [parseCSVLineAux_unquoted f (safe_fields (by simpa using hq)) []]
      rw [parseCSVLineAux_false_comma]
      rw [ih g]
      simp

/-- **C10** (counterexample).  The empty field list does not round-trip:
joining zero fields gives the empty line, and `parseCSVLine` on the empty
line returns `[""]` (the loop always pushes the final field), not `[]`. -/
theorem escapeCSV_roundTrip_nil_cex :
    parseCSVLine (joinComma (([] : List String).map escapeCSV)) = [""] ∧
    ([""] : List String) ≠ ([] : List String) :=
  ⟨rfl, by decide⟩

/-- **C10** (amended).  For every *non-empty* list of fields none of which
has leading or trailing whitespace, escaping each field with `escapeCSV`,
joining with commas and parsing with `parseCSVLine` returns the original
fields. -/
theorem escapeCSV_parseCSVLine_roundTrip (fields : List String)
    (hne : fields ≠ []) (htrim : ∀ f ∈ fields, jsTrim f = f) :
    parseCSVLine (joinComma (fields.map escapeCSV)) = fields := by
  match fields, hne with
  | f :: fs, _ =>
    rw [parseCSVLine]
    have hdata : (joinComma ((f :: fs).map escapeCSV)).data
        = joinCommaChars (((f :: fs).map String.data).map escapeChars) := by
      rw [joinComma]
      show joinCommaChars (((f :: fs).map escapeCSV).map String.data) = _
      rw [List.map_map, List.map_map]
      rfl
    rw [hdata, List.map_cons]
    rw [parse_join_chars (fs.map String.data) f.data]
    have htrimmed : (List.map jsTrimChars (f.data :: fs.map String.data))
        = f.data :: fs.map String.data := by
      have hall : ∀ x ∈ f.data :: fs.map String.data, jsTrimChars x = x := by
        intro x hx
        rcases List.mem_cons.mp hx with hx | hx
        · subst hx
          have := htrim f (List.mem_cons_self _ _)
          exact congrArg String.data this
        · obtain ⟨g, hg, hgx⟩ := List.mem_map.mp hx
          subst hgx
          have := htrim g (List.mem_cons_of_mem _ hg)
          exact congrArg String.data this
      simpa using List.map_congr_left hall
    rw [htrimmed]
    rw [List.map_cons, List.map_map]
    show (⟨f.data⟩ : String) :: fs.map (fun s => (⟨s.data⟩ : String)) = f :: fs
    congr 1
    calc fs.map (fun s => (⟨s.data⟩ : String))
        = fs.map id := List.map_congr_left (fun s _ => rfl)
      _ = fs := List.map_id fs

/-- Witness for the amended C10 at a concrete field list exercising quoting,
embedded quotes and embedded commas. -/
theorem escapeCSV_parseCSVLine_roundTrip_witness :
    parseCSVLine (joinComma
      (["menu.settings", "a \"b\", c", "Cat", "uses , and \""].map escapeCSV))
      = ["menu.settings", "a \"b\", c", "Cat", "uses , and \""] :=
  escapeCSV_parseCSVLine_roundTrip
    ["menu.settings", "a \"b\", c", "Cat", "uses , and \""]
    (by decide) (by decide)

/-! ### More JS string primitives (all structurally recursive so that
concrete evaluations reduce in the kernel) -/

/-- `split(sep)` for a single-character separator. -/
def splitOnCharAux (sep : Char) : List Char → List Char → List (List Char)
  | cur, [] => [cur.reverse]
  | cur, c :: rest =>
    if c = sep then cur.reverse :: splitOnCharAux sep [] rest
    else splitOnCharAux sep (c :: cur) rest

/-- `String.prototype.split` with a one-character separator. -/
def jsSplitChar (s : String) (sep : Char) : List String :=
  (splitOnCharAux sep [] s.data).map (fun l => String.mk l)

/-- `replace(literal, repl)` with a `g` flag: left-to-right, non-overlapping,
the replacement is not rescanned.  Fueled by the input length (each step
consumes at least one character; the pattern is never empty). -/
def replaceAllAux (pat repl : List Char) : Nat → List Char → List Char
  | 0, l => l
  | _ + 1, [] => []
  | fuel + 1, c :: rest =>
    if pat ≠ [] ∧ pat.isPrefixOf (c :: rest) then
      repl ++ replaceAllAux pat repl fuel ((c :: rest).drop pat.length)
    else c :: replaceAllAux pat repl fuel rest

/-- `s.replace(/pat/g, repl)` for a literal pattern. -/
def jsReplaceAll (s pat repl : String) : String :=
  ⟨replaceAllAux pat.data repl.data (s.data.length + 1) s.data⟩

/-- JS `x || d` for a string that is present (empty string is falsy). -/
def jsOrDefault (s d : String) : String := if s = "" then d else s

/-- JS `x || d` for a possibly-`undefined` string. -/
def jsOptOrDefault (o : Option String) (d : String) : String :=
  match o with
  | some s => jsOrDefault s d
  | none => d

/-! ### Anthropic batch translation -/

/-- A thrown JS error (only its `message` matters to the retry logic). -/
structure JsError where
  message : String
  deriving Repr, DecidableEq

/-- `AnthropicProvider.isRateLimitError`: message contains `429`,
`rate_limit_error` or `rate limit`. -/
def isRateLimitError (e : JsError) : Bool :=
  jsIncludes e.message "429" || jsIncludes e.message "rate_limit_error" ||
    jsIncludes e.message "rate limit"

/-- `this.initialRetryDelay = 2000` (milliseconds). -/
def initialRetryDelay : ℚ := 2000

/-- `this.rateLimitRetries = 3`. -/
def rateLimitRetries : Nat := 3

/-- `AnthropicProvider.calculateBackoffDelay(attempt)`: exponential backoff
with jitter, capped at 30 s.  `jitter` stands for `Math.random() * 1000`. -/
def calculateBackoffDelay (attempt : Nat) (jitter : ℚ) : ℚ :=
  let baseDelay := initialRetryDelay * 2 ^ (attempt - 1)
  min (baseDelay + jitter) 30000

/-- `BatchTranslateOptions`. -/
structure BatchTranslateOptions where
  entries : List TranslationEntry
  language : String
  systemPrompt : String
  userPrompt : String
  deriving Repr, DecidableEq

/-- `BatchTranslateResponse`: `results` and `errors` maps. -/
structure BatchTranslateResponse where
  results : List (String × TranslationResult)
  errors : List (String × String)
  deriving Repr, DecidableEq

/-- The `isCSVPrompt` keyword heuristic of `translateBatchWithRetry`. -/
def isCSVPromptBatch (prompt : String) : Bool :=
  jsIncludes prompt "CSV snippet below" ||
  jsIncludes prompt "For each entry in the CSV" ||
  jsIncludes prompt "For each row in the CSV" ||
  jsIncludes prompt "For every row you receive" ||
  jsIncludes prompt "CSV format" ||
  jsIncludes prompt "output four CSV fields" ||
  jsIncludes prompt "output exactly four CSV fields"

/-- `array.join(sep)`. -/
def joinWith (sep : String) : List String → String
  | [] => ""
  | f :: rest => rest.foldl (fun acc s => acc ++ sep ++ s) f

/-- The CSV block (`Key,Source,English Original` header plus one escaped row
per entry) built by `translateBatchWithRetry`. -/
def fullCSVFor (entries : List TranslationEntry) : String :=
  "Key,Source,English Original\n" ++
    joinWith "\n" (entries.map (fun e =>
      escapeCSV e.key ++ "," ++ escapeCSV e.source ++ "," ++ escapeCSV e.english))

/-- The batch prompt construction of `translateBatchWithRetry`: replace the
`\x7b\x7bcsv\x7d\x7d`, `\x7b\x7bentries_count\x7d\x7d` and
`\x7b\x7blanguage\x7d\x7d` macros; if the prompt's wording implies CSV input
but the template used no `\x7b\x7bcsv\x7d\x7d` macro, append the data block. -/
def buildBatchPrompt (options : BatchTranslateOptions) : String :=
  let fullCSV := fullCSVFor options.entries
  let entryCount := options.entries.length
  let isCSVPrompt := isCSVPromptBatch options.userPrompt
  let prompt := jsReplaceAll options.userPrompt "\x7b\x7bcsv\x7d\x7d" fullCSV
  let prompt := jsReplaceAll prompt "\x7b\x7bentries_count\x7d\x7d"
    (toString entryCount)
  let prompt := jsReplaceAll prompt "\x7b\x7blanguage\x7d\x7d" options.language
  if isCSVPrompt && !(jsIncludes options.userPrompt "\x7b\x7bcsv\x7d\x7d") then
    prompt ++ "\n\nENTRIES (" ++ toString entryCount ++ " total):\n<<<\n" ++
      fullCSV ++ "\n>>>\n\nREMINDER: Return exactly " ++ toString entryCount ++
      " output rows, one for each input entry above."
  else prompt

/-- `replace(/^```csv\s*/gm, '')` / `replace(/^```\s*/gm, '')`: at each line
start, remove the fence token and all following whitespace.  Fueled by the
input length. -/
def stripFenceOpenAux (token : List Char) : Nat → Bool → List Char → List Char
  | 0, _, l => l
  | _ + 1, _, [] => []
  | fuel + 1, atStart, c :: rest =>
    if atStart ∧ token.isPrefixOf (c :: rest) then
      let rem := (c :: rest).drop token.length
      let dropped := rem.takeWhile isJsWhitespace
      let rem₂ := rem.dropWhile isJsWhitespace
      stripFenceOpenAux token fuel (dropped.getLast? = some '\n') rem₂
    else c :: stripFenceOpenAux token fuel (c = '\n') rest

/-- `replace(/\s*```$/gm, '')`: remove a whitespace run followed by a fence
that sits at a line end.  Fueled by the input length. -/
def stripFenceCloseAux : Nat → List Char → List Char
  | 0, l => l
  | _ + 1, [] => []
  | fuel + 1, c :: rest =>
    let ws := (c :: rest).takeWhile isJsWhitespace
    let rem := (c :: rest).dropWhile isJsWhitespace
    if ("```".data).isPrefixOf rem ∧
        (rem.drop 3 = [] ∨ (rem.drop 3).head? = some '\n') ∧
        (ws ≠ [] ∨ c = Char.ofNat 96) then
      stripFenceCloseAux fuel (rem.drop 3)
    else c :: stripFenceCloseAux fuel rest

/-- The response cleaning of `parseBatchCSVResponse` (strip code fences,
trim). -/
def cleanBatchResponse (response : String) : String :=
  let s₁ := stripFenceOpenAux ("```csv".data) (response.data.length + 1) true
    response.data
  let s₂ := stripFenceOpenAux ("```".data) (s₁.length + 1) true s₁
  let s₃ := stripFenceCloseAux (s₂.length + 1) s₂
  jsTrim ⟨s₃⟩

/-- `key.toLowerCase().replace(/[^a-z0-9]/g, '')`. -/
def normalizeKey (k : String) : String :=
  ⟨(jsToLower k).data.filter
    (fun c => ('a' ≤ c ∧ c ≤ 'z') ∨ ('0' ≤ c ∧ c ≤ '9'))⟩

/-- The line-parsing loop of `parseBatchCSVResponse` (no fuzzy recovery
yet): skip an optional header line, parse each line as a CSV row; rows with
`≥ 4` fields are `(key, translation, category, reasoning)` (duplicates
skipped), rows with 2–3 fields are partial. -/
def parseBatchRows (response : String) : List (String × TranslationResult) :=
  let cleanResponse := cleanBatchResponse response
  let lines := (jsSplitChar cleanResponse '\n').filter (fun l => jsTrim l ≠ "")
  let startIndex :=
    match lines with
    | [] => 0
    | l0 :: _ =>
      if jsIncludes (jsToLower l0) "key" ∧ jsIncludes (jsToLower l0) "translation"
      then 1 else 0
  (lines.drop startIndex).foldl
    (fun results line =>
      let line := jsTrim line
      if line = "" then results
      else
        match parseCSVLine line with
        | key :: translation :: category :: reasoning :: _ =>
          if jsMapHas results key then results
          else jsMapSet results key
            ⟨jsOrDefault translation "", jsOrDefault category "Unknown",
             jsOrDefault reasoning "Batch translated"⟩
        | [key, f1] =>
          jsMapSet results key
            ⟨jsOrDefault f1 "", "Unknown", "Partial response"⟩
        | [key, f1, f2] =>
          jsMapSet results key
            ⟨jsOrDefault f1 "", jsOrDefault f2 "Unknown", "Partial response"⟩
        | _ => results)
    []

/-- The fuzzy-matching pass of `parseBatchCSVResponse`: for each requested
key still missing, adopt the first parsed row whose normalized key matches,
re-keying it. -/
def fuzzyRecover (entries : List TranslationEntry)
    (results₀ : List (String × TranslationResult)) :
    List (String × TranslationResult) :=
  entries.foldl
    (fun results entry =>
      if jsMapHas results entry.key then results
      else
        match results.find?
          (fun pr => normalizeKey pr.1 = normalizeKey entry.key) with
        | some pr => jsMapDelete (jsMapSet results entry.key pr.2) pr.1
        | none => results)
    results₀

/-- `AnthropicProvider.parseBatchCSVResponse`: parse rows, then run fuzzy
recovery only when fewer rows were recovered than entries requested. -/
def parseBatchCSVResponse (response : String)
    (entries : List TranslationEntry) : List (String × TranslationResult) :=
  let results := parseBatchRows response
  if results.length < entries.length then fuzzyRecover entries results
  else results

/-- `translateBatchWithRetry`, fueled so that concrete runs reduce in the
kernel.  `batchCall attempt prompt` is the outcome of the provider request on
that attempt (`.error` models a rejected `client.messages.create`);
`jitter attempt` is the `Math.random() * 1000` draw; the returned list is the
trace of backoff delays awaited (the separate rate-limiter wait is modelled
by `getRequiredDelay` above and does not affect results).  The fuel
`rateLimitRetries + 1 - attempt` is positive whenever the retry guard
`attempt <= rateLimitRetries` holds, so the `0` branch is unreachable. -/
def translateBatchWithRetryAux
    (batchCall : Nat → String → Except JsError String)
    (jitter : Nat → ℚ) (options : BatchTranslateOptions) :
    Nat → Nat → BatchTranslateResponse × List ℚ
  | fuel, attempt =>
    let prompt := buildBatchPrompt options
    match batchCall attempt prompt with
    | .ok response =>
      let parsed := parseBatchCSVResponse response options.entries
      let rr := options.entries.foldl
        (fun (acc : List (String × TranslationResult) × List (String × String))
            entry =>
          match jsMapGet parsed entry.key with
          | some result => (jsMapSet acc.1 entry.key result, acc.2)
          | none =>
            (jsMapSet acc.1 entry.key
              ⟨"[ERROR]", "Error", "Missing from batch response"⟩,
             jsMapSet acc.2 entry.key "No translation found in response"))
        ([], [])
      (⟨rr.1, rr.2⟩, [])
    | .error e =>
      if isRateLimitError e ∧ attempt ≤ rateLimitRetries then
        match fuel with
        | fuel₂ + 1 =>
          let d := calculateBackoffDelay attempt (jitter attempt)
          let next := translateBatchWithRetryAux batchCall jitter options
            fuel₂ (attempt + 1)
          (next.1, d :: next.2)
        | 0 => (⟨[], []⟩, [])
      else
        (⟨options.entries.foldl
            (fun acc entry => jsMapSet acc entry.key
              ⟨"[ERROR]", "Error", "Batch translation failed: " ++ e.message⟩)
            [],
          options.entries.foldl
            (fun acc entry => jsMapSet acc entry.key e.message) []⟩, [])

/-- `translateBatchWithRetry(options, attempt)` (attempt is 1 on the first
call). -/
def translateBatchWithRetry
    (batchCall : Nat → String → Except JsError String)
    (jitter : Nat → ℚ) (options : BatchTranslateOptions) (attempt : Nat) :
    BatchTranslateResponse × List ℚ :=
  translateBatchWithRetryAux batchCall jitter options
    (rateLimitRetries + 1 - attempt) attempt

/-- `TranslateOptions` for an individual request. -/
structure TranslateOptions where
  text : String
  key : String
  source : String
  language : String
  systemPrompt : String
  userPrompt : String
  deriving Repr, DecidableEq

/-- A provider client as `processBatch` sees one: `translateBatch` and
`translate`, each able to reject with an error message. -/
structure ProviderClient where
  translateBatchFn : BatchTranslateOptions → Except String BatchTranslateResponse
  translateFn : TranslateOptions → Except String TranslationResult

/-- `ParallelTranslationEngine.processBatch`: try the batch call; only if it
*throws* does the per-entry individual fallback run (sentinel on individual
failure). -/
def processBatch (provider : ProviderClient) (batch : List TranslationEntry)
    (group : TranslationGroup) : List (String × TranslationResult) :=
  match provider.translateBatchFn
    ⟨batch, group.name, group.systemPrompt, group.userPrompt⟩ with
  | .ok batchResponse =>
    batchResponse.results.foldl (fun acc kr => jsMapSet acc kr.1 kr.2) []
  | .error _ =>
    batch.foldl
      (fun acc entry =>
        match provider.translateFn
          ⟨entry.english, entry.key, entry.source, group.name,
           group.systemPrompt, group.userPrompt⟩ with
        | .ok response => jsMapSet acc entry.key response
        | .error msg =>
          jsMapSet acc entry.key ⟨"[ERROR]", "Error", msg⟩)
      []

/-- The Anthropic provider as a `ProviderClient`: its `translateBatch` is
`translateBatchWithRetry`, which catches every request failure internally
and resolves with sentinel results — it never rejects. -/
def anthropicClient (batchCall : Nat → String → Except JsError String)
    (jitter : Nat → ℚ)
    (translateOne : TranslateOptions → Except String TranslationResult) :
    ProviderClient where
  translateBatchFn := fun options =>
    .ok (translateBatchWithRetry batchCall jitter options 1).1
  translateFn := translateOne

/-! ### C3 / C8 / C9 theorems -/

def c3Entry : TranslationEntry :=
  { key := "greeting.hi", source := "app", english := "Hello" }

def c3Group : TranslationGroup :=
  { id := "g-hi", name := "Hindi", provider := .anthropic,
    model := "claude-3-5-sonnet-20241022", systemPrompt := "sys",
    userPrompt := "Translate the text", columnName := "Hindi Translation" }

/-- Batch request that fails every attempt with a rate-limit error. -/
def c3BatchCall : Nat → String → Except JsError String :=
  fun _ _ => .error ⟨"429 rate limited"⟩

def c3Jitter : Nat → ℚ := fun _ => 0

/-- Individual request that always succeeds. -/
def c3Individual : TranslateOptions → Except String TranslationResult :=
  fun _ => .ok ⟨"नमस्ते", "Greeting", "ok"⟩

/-- **C3**.  The claim says a batch whose batch-level request fails after its
retries degrades to individual requests, so that when those succeed every
task ends with a non-sentinel result.  The code violates this: for a
one-entry batch whose batch request fails with a rate-limit error on all
four attempts while the individual request would succeed, the entry ends
with the `[ERROR]` sentinel — `translateBatchWithRetry` catches the failure
and resolves with sentinels instead of rejecting, so `processBatch`'s
individual fallback (which only runs when `translateBatch` throws) never
executes. -/
theorem noLossBatchDegradation_code_bug :
    processBatch (anthropicClient c3BatchCall c3Jitter c3Individual)
        [c3Entry] c3Group
      = [("greeting.hi",
          ⟨"[ERROR]", "Error", "Batch translation failed: 429 rate limited"⟩)]
    ∧ c3Individual
        ⟨c3Entry.english, c3Entry.key, c3Entry.source, c3Group.name,
         c3Group.systemPrompt, c3Group.userPrompt⟩
      = .ok ⟨"नमस्ते", "Greeting", "ok"⟩ := by
  constructor <;> rfl

theorem translateBatchWithRetryAux_error_retry
    (bc : Nat → String → Except JsError String) (jit : Nat → ℚ)
    (opts : BatchTranslateOptions) (fuel attempt : Nat) (e : JsError)
    (hcall : bc attempt (buildBatchPrompt opts) = .error e)
    (hrl : isRateLimitError e = true) (hle : attempt ≤ rateLimitRetries) :
    translateBatchWithRetryAux bc jit opts (fuel + 1) attempt
      = ((translateBatchWithRetryAux bc jit opts fuel (attempt + 1)).1,
         calculateBackoffDelay attempt (jit attempt)
           :: (translateBatchWithRetryAux bc jit opts fuel (attempt + 1)).2) := by
  rw [translateBatchWithRetryAux.eq_def]
  simp only [hcall]
  rw [if_pos ⟨hrl, hle⟩]

theorem translateBatchWithRetryAux_error_stop
    (bc : Nat → String → Except JsError String) (jit : Nat → ℚ)
    (opts : BatchTranslateOptions) (fuel attempt : Nat) (e : JsError)
    (hcall : bc attempt (buildBatchPrompt opts) = .error e)
    (hstop : isRateLimitError e = false ∨ rateLimitRetries < attempt) :
    translateBatchWithRetryAux bc jit opts fuel attempt
      = (⟨opts.entries.foldl
            (fun acc entry => jsMapSet acc entry.key
              ⟨"[ERROR]", "Error", "Batch translation failed: " ++ e.message⟩)
            [],
          opts.entries.foldl
            (fun acc entry => jsMapSet acc entry.key e.message) []⟩, []) := by
  rw [translateBatchWithRetryAux.eq_def]
  simp only [hcall]
  rw [if_neg (by
    rintro ⟨h1, h2⟩
    rcases hstop with h | h
    · rw [h1] at h; cases h
    · omega)]

/-- **C9** (backoff formula).  (1) For every attempt `n ≥ 1` and jitter
`j ∈ [0, 1000)`, the backoff delay is
`min(initialDelay · 2^(n-1) + j, 30000)` with `initialDelay = 2000` ms;
(2) an error counts as a rate-limit error exactly when its message contains
`429`, `rate_limit_error` or `rate limit`; (3) in
`translateBatchWithRetry`, when attempt `n` fails, the backoff delay for
attempt `n` is awaited (and the run continues at attempt `n + 1`) exactly
when the error is a rate-limit error and `n` is within the retry ceiling 3;
otherwise no delay is awaited. -/
theorem backoffFormula (n : Nat) (j : ℚ) (hn : 1 ≤ n) (h0 : 0 ≤ j)
    (hj : j < 1000) :
    calculateBackoffDelay n j = min (2000 * 2 ^ (n - 1) + j) 30000
    ∧ (∀ e : JsError, isRateLimitError e =
        (jsIncludes e.message "429" || jsIncludes e.message "rate_limit_error"
          || jsIncludes e.message "rate limit"))
    ∧ (∀ (bc : Nat → String → Except JsError String) (jit : Nat → ℚ)
        (opts : BatchTranslateOptions) (e : JsError),
        bc n (buildBatchPrompt opts) = .error e →
        (isRateLimitError e = true → n ≤ rateLimitRetries →
          (translateBatchWithRetry bc jit opts n).2
            = calculateBackoffDelay n (jit n)
                :: (translateBatchWithRetry bc jit opts (n + 1)).2)
        ∧ (isRateLimitError e = false ∨ rateLimitRetries < n →
          (translateBatchWithRetry bc jit opts n).2 = [])) := by
  refine ⟨rfl, fun e => rfl, ?_⟩
  intro bc jit opts e hcall
  constructor
  · intro hrl hle
    rw [translateBatchWithRetry, translateBatchWithRetry]
    have hfuel : rateLimitRetries + 1 - n = (rateLimitRetries - n) + 1 := by
      rw [rateLimitRetries] at hle ⊢
      omega
    have hfuel₂ : rateLimitRetries + 1 - (n + 1) = rateLimitRetries - n := by
      omega
    rw [hfuel, hfuel₂,
      translateBatchWithRetryAux_error_retry bc jit opts
        (rateLimitRetries - n) n e hcall hrl hle]
  · intro hstop
    rw [translateBatchWithRetry,
      translateBatchWithRetryAux_error_stop bc jit opts _ n e hcall hstop]

/-- Witness for C9 at attempt 2, jitter 500. -/
theorem backoffFormula_witness :
    calculateBackoffDelay 2 500 = min (2000 * 2 ^ (2 - 1) + 500) 30000 :=
  (backoffFormula 2 500 (by decide) (by decide) (by decide)).1

theorem jsMapGet_delete_ne {β : Type} (m : List (String × β)) (k k₂ : String)
    (h : k₂ ≠ k) : jsMapGet (jsMapDelete m k) k₂ = jsMapGet m k₂ := by
  induction m with
  | nil => rfl
  | cons p rest ih =>
    obtain ⟨k₃, v⟩ := p
    by_cases hk : k₃ = k
    · rw [jsMapDelete, if_pos hk, jsMapGet,
        if_neg (show k₃ ≠ k₂ from fun hh => h (hh ▸ hk))]
    · rw [jsMapDelete, if_neg hk, jsMapGet, jsMapGet]
      by_cases hk₂ : k₃ = k₂
      · rw [if_pos hk₂, if_pos hk₂]
      · rw [if_neg hk₂, if_neg hk₂, ih]

theorem jsMapGet_isSome_of_mem {β : Type} {m : List (String × β)}
    {pr : String × β} (h : pr ∈ m) : (jsMapGet m pr.1).isSome := by
  induction m with
  | nil => cases h
  | cons q rest ih =>
    obtain ⟨k, v⟩ := q
    rcases List.mem_cons.mp h with hh | hh
    · subst hh
      rw [jsMapGet, if_pos rfl]
      rfl
    · rw [jsMapGet]
      by_cases hk : k = pr.1
      · rw [if_pos hk]; rfl
      · rw [if_neg hk]; exact ih hh

def c8Entry : TranslationEntry :=
  { key := "menu.settings", source := "menu", english := "Settings" }

def c8Entry₂ : TranslationEntry :=
  { key := "other.key", source := "menu", english := "Other" }

/-- **C8** (counterexample).  With exactly one requested key
`menu.settings` and one recovered row keyed `Menu_Settings`, the recovered
count (1) is *not* smaller than the requested count (1), so the fuzzy pass
never runs and the row is NOT adopted for `menu.settings` — contradicting
the claim's "in particular" scenario. -/
theorem fuzzyKeyRecovery_single_cex :
    parseBatchCSVResponse "Menu_Settings,Einstellungen,UI,ok" [c8Entry]
      = [("Menu_Settings", ⟨"Einstellungen", "UI", "ok"⟩)]
    ∧ jsMapGet (parseBatchCSVResponse "Menu_Settings,Einstellungen,UI,ok"
        [c8Entry]) "menu.settings" = none := by
  constructor <;> rfl

/-- **C8** (amended).  Fuzzy key recovery runs only when *strictly fewer*
rows were recovered than tasks requested; in that case a missing requested
key adopts the first recovered row whose key is equal after lowercasing and
stripping non-alphanumerics (and is not adopted when no such row exists).
In the claim's scenario this requires at least two requested keys: with
requested keys `menu.settings` and `other.key` and the single recovered row
`Menu_Settings`, the row is fuzzy-matched and accepted for
`menu.settings`. -/
theorem fuzzyKeyRecovery_amended :
    (∀ (response : String) (entries : List TranslationEntry),
      ¬ (parseBatchRows response).length < entries.length →
      parseBatchCSVResponse response entries = parseBatchRows response)
    ∧ (∀ (response : String) (entries : List TranslationEntry),
      (parseBatchRows response).length < entries.length →
      parseBatchCSVResponse response entries
        = fuzzyRecover entries (parseBatchRows response))
    ∧ (∀ (e : TranslationEntry) (results : List (String × TranslationResult)),
        jsMapHas results e.key = false →
        (∀ pr, results.find?
            (fun pr => normalizeKey pr.1 = normalizeKey e.key) = some pr →
          jsMapGet (fuzzyRecover [e] results) e.key = some pr.2)
        ∧ (results.find?
            (fun pr => normalizeKey pr.1 = normalizeKey e.key) = none →
          jsMapGet (fuzzyRecover [e] results) e.key = none))
    ∧ jsMapGet (parseBatchCSVResponse "Menu_Settings,Einstellungen,UI,ok"
        [c8Entry, c8Entry₂]) "menu.settings"
      = some ⟨"Einstellungen", "UI", "ok"⟩ := by
  refine ⟨?_, ?_, ?_, by rfl⟩
  · intro response entries hge
    simp only [parseBatchCSVResponse]
    rw [if_neg hge]
  · intro response entries hlt
    simp only [parseBatchCSVResponse]
    rw [if_pos hlt]
  · intro e results hmiss
    have hnone : jsMapGet results e.key = none := by
      rw [jsMapHas] at hmiss
      exact Option.not_isSome_iff_eq_none.mp (by rw [hmiss]; simp)
    constructor
    · intro pr hfind
      rw [fuzzyRecover, List.foldl_cons, List.foldl_nil]
      rw [if_neg (by rw [hmiss]; simp), hfind]
      have hprmem : pr ∈ results := List.mem_of_find?_eq_some hfind
      have hprne : pr.1 ≠ e.key := by
        intro hh
        have := jsMapGet_isSome_of_mem hprmem
        rw [hh, hnone] at this
        cases this
      rw [jsMapGet_delete_ne _ _ _ (fun hh => hprne hh.symm)]
      exact jsMapGet_set_self results e.key pr.2
    · intro hfind
      rw [fuzzyRecover, List.foldl_cons, List.foldl_nil]
      rw [if_neg (by rw [hmiss]; simp), hfind]
      exact hnone

/-- Witness for the amended C8: the single-entry fuzzy-adoption rule applied
to the scenario map. -/
theorem fuzzyKeyRecovery_amended_witness :
    jsMapGet (fuzzyRecover [c8Entry]
      [("Menu_Settings", ⟨"Einstellungen", "UI", "ok"⟩)]) "menu.settings"
      = some ⟨"Einstellungen", "UI", "ok"⟩ :=
  (fuzzyKeyRecovery_amended.2.2.1 c8Entry
    [("Menu_Settings", ⟨"Einstellungen", "UI", "ok"⟩)] (by rfl)).1
    ("Menu_Settings", ⟨"Einstellungen", "UI", "ok"⟩) (by rfl)

/-! ## Response recoverer (`src/lib/utils/csv-parser.ts`) and response
validator (`src/lib/utils/rate-limiter.ts`, `ResponseValidator`)

The regular expressions of the source are translated into executable
character-list scanners.  A `/i` pattern compares the subject case-folded
against lowercase literals; `^`-anchored patterns become prefix tests over
the finite expansion of their alternations; a \b word boundary becomes a
scan over positions whose preceding character is not a word character. -/

/-- JS regex word character `\w` = `[A-Za-z0-9_]`. -/
def isWordChar (c : Char) : Bool := c.isAlpha || c.isDigit || c = '_'

/-- Drop a lowercase literal from the front of a subject, comparing
case-insensitively (`/i` matching of a literal). -/
def dropPrefixCI : List Char → List Char → Option (List Char)
  | [], s => some s
  | p :: ps, c :: cs => if c.toLower = p then dropPrefixCI ps cs else none
  | _ :: _, [] => none

/-- Case-insensitive `startsWith` against a lowercase literal. -/
def startsWithCI (p : String) (s : List Char) : Bool :=
  (dropPrefixCI p.data s).isSome

/-- Case-insensitive whole-string equality against a lowercase literal
(an `/^lit$/i` pattern). -/
def eqCI (p : String) (s : List Char) : Bool :=
  match dropPrefixCI p.data s with
  | some [] => true
  | _ => false

/-- Drop an exact (case-sensitive) literal from the front of a subject. -/
def dropLit : List Char → List Char → Option (List Char)
  | [], s => some s
  | p :: ps, c :: cs => if c = p then dropLit ps cs else none
  | _ :: _, [] => none

/-- Scan every position of the subject; `p` is tried at each position whose
preceding character is not a word character (a `\b` boundary before a
pattern starting with a word character). -/
def boundaryScanAux (p : List Char → Bool) : Bool → List Char → Bool
  | _, [] => false
  | atB, c :: rest => (atB && p (c :: rest)) || boundaryScanAux p (!isWordChar c) rest

/-- A `/\b.../ ` regex test for a pattern starting with a word character. -/
def boundaryScan (p : List Char → Bool) (s : List Char) : Bool :=
  boundaryScanAux p true s

/-- Case-insensitive literal with a trailing `\b`: the literal matches here
and the next character (if any) is not a word character. -/
def litWithEndBoundary (lit : String) (s : List Char) : Bool :=
  match dropPrefixCI lit.data s with
  | some [] => true
  | some (c :: _) => !isWordChar c
  | none => false

/-- A `/\blit\b/i` regex test. -/
def litBothBoundaries (lit : String) (s : List Char) : Bool :=
  boundaryScan (litWithEndBoundary lit) s

/-- The maximal runs of word characters of a string (used to decide
`/\bword\b/` membership for all-word-character alternatives). -/
def wordRunsAux : List Char → List Char → List (List Char)
  | acc, [] => if acc.isEmpty then [] else [acc.reverse]
  | acc, c :: rest =>
    if isWordChar c then wordRunsAux (c :: acc) rest
    else if acc.isEmpty then wordRunsAux [] rest
    else acc.reverse :: wordRunsAux [] rest

def wordRuns (s : List Char) : List (List Char) := wordRunsAux [] s

/-! ### Acknowledgment patterns (`parseWithFallbacks`, lines 171-177) -/

/-- Regex 1: `(and |then |next |now |yes, )?(i'll|i will|i would|i can|let
me) (output|return|provide|give you|format|translate)` anchored at the
start, case-insensitive. -/
def ackPattern1 (s : List Char) : Bool :=
  ["", "and ", "then ", "next ", "now ", "yes, "].any fun p =>
    ["i'll", "i will", "i would", "i can", "let me"].any fun a =>
      ["output", "return", "provide", "give you", "format", "translate"].any fun b =>
        startsWithCI (p ++ a ++ " " ++ b) s

/-- Regex 2: `^(sure|okay|yes|alright),?\s*(i'll|i will|here is|here
are)/i`.  The optional comma and the whitespace run are consumed greedily;
the continuation starts with a non-comma, non-whitespace character, so this
is exact. -/
def ackPattern2 (s : List Char) : Bool :=
  ["sure", "okay", "yes", "alright"].any fun a =>
    match dropPrefixCI a.data s with
    | none => false
    | some r =>
      let r₁ := match r with
        | ',' :: t => t
        | _ => r
      let r₂ := r₁.dropWhile isJsWhitespace
      ["i'll", "i will", "here is", "here are"].any fun b => startsWithCI b r₂

/-- Regex 3 at a position: `(output|return|provide) (the |exactly )?(four|4)
(csv )?(fields?|columns?)`; the trailing `s?` needs no lookahead, so
matching the stem suffices. -/
def ackPattern3At (s : List Char) : Bool :=
  ["output ", "return ", "provide "].any fun a =>
    ["", "the ", "exactly "].any fun b =>
      ["four ", "4 "].any fun c =>
        ["", "csv "].any fun d =>
          ["field", "column"].any fun e =>
            startsWithCI (a ++ b ++ c ++ d ++ e) s

def ackPattern3 (s : List Char) : Bool := boundaryScan ackPattern3At s

/-- Regex 4 at a position: `format you (specified|requested|asked for)`. -/
def ackPattern4At (s : List Char) : Bool :=
  ["format you specified", "format you requested", "format you asked for"].any
    fun w => startsWithCI w s

def ackPattern4 (s : List Char) : Bool := boundaryScan ackPattern4At s

/-- Regex 5: `^(yes, )?here (is|are) (the|your) translation/i`. -/
def ackPattern5 (s : List Char) : Bool :=
  ["", "yes, "].any fun p =>
    ["is", "are"].any fun a =>
      ["the", "your"].any fun b =>
        startsWithCI (p ++ "here " ++ a ++ " " ++ b ++ " translation") s

/-- The acknowledgment loop of `parseWithFallbacks`: each pattern is tested
against `response.trim()`; any hit returns the acknowledgment sentinel. -/
def acknowledgmentMatch (response : String) : Bool :=
  let t := (jsTrim response).data
  ackPattern1 t || ackPattern2 t || ackPattern3 t || ackPattern4 t || ackPattern5 t

/-! ### Structure-mention guard (`parseWithFallbacks`, lines 190-198) -/

/-- `/\b(Key|Category|Reasoning|Translation|CSV|fields?)\b/i`: every
alternative is a full word of word characters, so the regex matches iff some
maximal word run equals one of them (case-insensitively). -/
def mentionsCSVStructure (s : String) : Bool :=
  (wordRuns s.data).any fun r =>
    ["key", "category", "reasoning", "translation", "csv", "field",
      "fields"].contains (String.mk (r.map Char.toLower))

/-- The incomplete-response guard: structure words mentioned, no comma, and
fewer than 100 characters. -/
def structureGuard (response : String) : Bool :=
  mentionsCSVStructure response && !(jsIncludes response ",") &&
    decide (response.length < 100)

/-! ### `preprocessResponse` (lines 46-70) -/

/-- Drop leading JS whitespace, remembering the last dropped character (to
know whether the position after a multiline match is a line start). -/
def dropWsTrack : Option Char → List Char → Option Char × List Char
  | last, [] => (last, [])
  | last, c :: rest =>
    if isJsWhitespace c then dropWsTrack (some c) rest else (last, c :: rest)

/-- Match `/^```(?:csv)?\s*\n?/` at the current (line-start) position: three
backticks, an optional literal `csv`, then a greedy whitespace run (which
subsumes the final optional newline).  Returns whether the consumed text
ends in a newline, and the remainder. -/
def fenceOpenSplit (s : List Char) : Option (Bool × List Char) :=
  match dropLit "```".data s with
  | none => none
  | some r₁ =>
    let r₂ := (dropLit "csv".data r₁).getD r₁
    match dropWsTrack none r₂ with
    | (last, r₃) => some (last == some '\n', r₃)

/-- The `/^```(?:csv)?\s*\n?/gm` global replace with the empty string:
left-to-right scan, attempting the pattern at each line start. -/
def removeFenceOpenAux : Nat → Bool → List Char → List Char
  | 0, _, s => s
  | fuel + 1, atLS, s =>
    match s with
    | [] => []
    | c :: rest =>
      if atLS then
        match fenceOpenSplit s with
        | some (nl, r) => removeFenceOpenAux fuel nl r
        | none => c :: removeFenceOpenAux fuel (c == '\n') rest
      else c :: removeFenceOpenAux fuel (c == '\n') rest

/-- Backtracking tail of `/\n?```\s*$/m`: consume the longest whitespace
prefix after which the position is the end of the string or sits before a
newline (`$` with the `m` flag). -/
def fenceCloseWs : List Char → Option (List Char)
  | [] => some []
  | c :: rest =>
    if isJsWhitespace c then
      match fenceCloseWs rest with
      | some r => some r
      | none => if c == '\n' then some (c :: rest) else none
    else none

/-- Match `/\n?```\s*$/m` at the current position. -/
def fenceCloseSplit (s : List Char) : Option (List Char) :=
  let core : List Char → Option (List Char) := fun t =>
    match dropLit "```".data t with
    | some r => fenceCloseWs r
    | none => none
  match s with
  | '\n' :: rest => core rest
  | _ => core s

/-- The `/\n?```\s*$/gm` global replace with the empty string. -/
def removeFenceCloseAux : Nat → List Char → List Char
  | 0, s => s
  | fuel + 1, s =>
    match s with
    | [] => []
    | c :: rest =>
      match fenceCloseSplit s with
      | some r => removeFenceCloseAux fuel r
      | none => c :: removeFenceCloseAux fuel rest

/-- Lazy inner of `/delim(.+?)delim/`: at least one non-newline character,
stopping at the first closing delimiter.  Returns the capture and the
remainder after the closing delimiter. -/
def lazyDelimInnerAux (close : List Char) : List Char → List Char →
    Option (List Char × List Char)
  | _, [] => none
  | acc, c :: rest =>
    if c == '\n' then none
    else
      match dropLit close rest with
      | some r₂ => some ((c :: acc).reverse, r₂)
      | none => lazyDelimInnerAux close (c :: acc) rest

/-- Match `/delim(.+?)delim/` at the current position. -/
def lazyDelimSplit (delim : List Char) (s : List Char) :
    Option (List Char × List Char) :=
  match dropLit delim s with
  | some r => lazyDelimInnerAux delim [] r
  | none => none

/-- Global replace of `/delim(.+?)delim/g` with the capture (`$1`), used for
the bold, italic and inline-code markdown strippers. -/
def replaceLazyDelimAux (delim : List Char) : Nat → List Char → List Char
  | 0, s => s
  | _ + 1, [] => []
  | fuel + 1, c :: rest =>
    match lazyDelimSplit delim (c :: rest) with
    | some (cap, r) => cap ++ replaceLazyDelimAux delim fuel r
    | none => c :: replaceLazyDelimAux delim fuel rest

/-- Smart double and single quotes to their ASCII versions (the two
character-class replaces of `preprocessResponse`). -/
def normalizeQuoteChar (c : Char) : Char :=
  if c == Char.ofNat 8220 || c == Char.ofNat 8221 then '"'
  else if c == Char.ofNat 8216 || c == Char.ofNat 8217 then '\''
  else c

/-- First case-insensitive prefix of the list matching the subject (the
alternatives diverge pairwise at literal positions, so at most one can
match). -/
def tryPrefixesCI : List String → List Char → Option (List Char)
  | [], _ => none
  | p :: ps, s =>
    match dropPrefixCI p.data s with
    | some r => some r
    | none => tryPrefixesCI ps s

/-- Lazy `.*?:` — consume up to and including the first colon on the current
line. -/
def lazyUntilColon : List Char → Option (List Char)
  | [] => none
  | c :: rest =>
    if c == ':' then some rest
    else if c == '\n' then none
    else lazyUntilColon rest

/-- Match one boilerplate pattern (`prefix` + `.*?:` + `\s*`) at a line
start, returning the remainder after the match. -/
def boilerplateSplit (combos : List String) (s : List Char) : Option (List Char) :=
  match tryPrefixesCI combos s with
  | some r =>
    match lazyUntilColon r with
    | some r₂ => some (r₂.dropWhile isJsWhitespace)
    | none => none
  | none => none

/-- First-match-only removal of a line-anchored `/^(?:...)\s*/im` pattern
(no `g` flag: only the leftmost match is deleted). -/
def removeLineAnchoredOnceAux (combos : List String) : Nat → Bool → List Char → List Char
  | 0, _, s => s
  | fuel + 1, atLS, s =>
    match s with
    | [] => []
    | c :: rest =>
      if atLS then
        match boilerplateSplit combos s with
        | some r => r
        | none => c :: removeLineAnchoredOnceAux combos fuel (c == '\n') rest
      else c :: removeLineAnchoredOnceAux combos fuel (c == '\n') rest

/-- Expansion of `Here(?:'s| is) (?:the|your) (?:translation|CSV)` for the
first boilerplate remover. -/
def boilerplate1Combos : List String :=
  ["here's the translation", "here's the csv", "here's your translation",
   "here's your csv", "here is the translation", "here is the csv",
   "here is your translation", "here is your csv"]

/-- `RobustCSVParser.preprocessResponse`: code fences, bold, italic and
inline-code markdown, smart quotes, the two boilerplate instruction lines,
then a final trim. -/
def preprocessResponse (response : String) : String :=
  let l₀ := response.data
  let l₁ := removeFenceOpenAux (l₀.length + 1) true l₀
  let l₂ := removeFenceCloseAux (l₁.length + 1) l₁
  let l₃ := replaceLazyDelimAux "**".data (l₂.length + 1) l₂
  let l₄ := replaceLazyDelimAux "*".data (l₃.length + 1) l₃
  let l₅ := replaceLazyDelimAux [Char.ofNat 96] (l₄.length + 1) l₄
  let l₆ := l₅.map normalizeQuoteChar
  let l₇ := removeLineAnchoredOnceAux boilerplate1Combos (l₆.length + 1) true l₆
  let l₈ := removeLineAnchoredOnceAux ["i've translated"] (l₇.length + 1) true l₇
  ⟨jsTrimChars l₈⟩

/-! ### `parseAIResponse` (lines 76-135) -/

/-- Regex guard of `parseAIResponse` at a position:
`(i'll|i will|let me) (output|return|provide|give you|format)`. -/
def parseGuardAt (s : List Char) : Bool :=
  ["i'll ", "i will ", "let me "].any fun a =>
    ["output", "return", "provide", "give you", "format"].any fun b =>
      startsWithCI (a ++ b) s

def parseGuardMatch (s : List Char) : Bool := boundaryScan parseGuardAt s

/-- The data-line loop: skip header-looking lines, take the first line with
a comma. -/
def findDataLine : List String → Option String
  | [] => none
  | line :: rest =>
    if jsIncludes (jsToLower line) "key," ||
        (jsIncludes (jsToLower line) "category" &&
          jsIncludes (jsToLower line) "reasoning") then
      findDataLine rest
    else if jsIncludes line "," then some line
    else findDataLine rest

/-- Modelled from the spec: `RobustCSVParser.parseRow` delegates to the
PapaParse library (not part of this repository), configured with the comma
delimiter, the double quote as quote and escape character, no header and
empty-line skipping, and returns the first parsed row's fields (none for an
empty row).  Standard single-row CSV semantics: a comma outside quotes
separates fields, a quote toggles quoted mode, a doubled quote inside quotes
is a literal quote. -/
def parseRow (row : String) : List String :=
  if row = "" then []
  else (parseCSVLineAux false [] row.data).map (fun l => String.mk l)

/-- `RobustCSVParser.parseAIResponse`: preprocess, reject instruction-text
responses, pick the data line, parse it, and keep the second field as the
translation (`category`/`reasoning` defaulted when missing or blank). -/
def parseAIResponse (response : String) : Option TranslationResult :=
  let clean := preprocessResponse response
  if jsIncludes (jsToLower clean) "i'm ready to translate" ||
      jsIncludes (jsToLower clean) "please provide" ||
      parseGuardMatch clean.data ||
      jsIncludes clean "format you specified" ||
      jsIncludes clean "four csv fields" ||
      jsIncludes clean "four fields" then none
  else
    let lines := (jsSplitChar clean '\n').filter (fun line => jsTrim line != "")
    match findDataLine lines with
    | none => none
    | some dataLine =>
      let fields := parseRow dataLine
      if fields.length < 2 then none
      else
        let translation := (fields[1]?).getD ""
        if translation = "" || jsTrim translation = "" then none
        else
          some { translation := jsTrim translation,
                 category := jsOptOrDefault ((fields[2]?).map jsTrim) "Unknown",
                 reasoning := jsOptOrDefault ((fields[3]?).map jsTrim) "Parsed from CSV" }

/-! ### Fallback extraction patterns (lines 207-222) -/

/-- `replace(/^["']|["']$/g, '')`: drop one leading and one trailing quote
or apostrophe. -/
def stripEdgeQuotes (s : String) : String :=
  let l₁ := match s.data with
    | c :: rest => if c == '"' || c == '\'' then rest else s.data
    | [] => []
  let l₂ := match l₁.reverse with
    | c :: rest => if c == '"' || c == '\'' then rest.reverse else l₁
    | [] => []
  ⟨l₂⟩

/-- Lazy capture continuation `(.+?)(?:,|\n|$)` once at least one character
has been captured: stop before the first comma or newline, or at the end. -/
def lazyCaptureAux : List Char → List Char → List Char
  | acc, [] => acc.reverse
  | acc, c :: rest =>
    if c == ',' || c == '\n' then acc.reverse
    else lazyCaptureAux (c :: acc) rest

/-- `(.+?)(?:,|\n|$)`: the first captured character may be anything but a
newline. -/
def lazyCapture : List Char → Option (List Char)
  | [] => none
  | c :: rest => if c == '\n' then none else some (lazyCaptureAux [c] rest)

/-- Backtracking `[:\s]*(.+?)(?:,|\n|$)`: the greedy class run gives back
characters one at a time when the capture cannot start. -/
def extractAfterLit : List Char → Option (List Char)
  | [] => none
  | c :: rest =>
    if c == ':' || isJsWhitespace c then
      match extractAfterLit rest with
      | some cap => some cap
      | none => if c == '\n' then none else some (lazyCaptureAux [c] rest)
    else lazyCapture (c :: rest)

/-- Leftmost match of `/lit[:\s]*(.+?)(?:,|\n|$)/i`, returning the capture:
at each occurrence of the literal the continuation is attempted, moving on
to the next occurrence when it fails. -/
def scanPatternCI (lit : String) : List Char → Option (List Char)
  | [] => none
  | c :: rest =>
    match dropPrefixCI lit.data (c :: rest) with
    | some after =>
      match extractAfterLit after with
      | some cap => some cap
      | none => scanPatternCI lit rest
    | none => scanPatternCI lit rest

/-- Fallback 1 of `parseWithFallbacks`: the three extraction patterns in
order, the capture trimmed and stripped of one pair of edge quotes.  The
capture of a successful match is never empty, so its JS truthiness test
always passes. -/
def fallbackExtract (response : String) : Option String :=
  match scanPatternCI "translation" response.data with
  | some cap => some (stripEdgeQuotes (jsTrim ⟨cap⟩))
  | none =>
    match scanPatternCI "translated" response.data with
    | some cap => some (stripEdgeQuotes (jsTrim ⟨cap⟩))
    | none =>
      match scanPatternCI "result" response.data with
      | some cap => some (stripEdgeQuotes (jsTrim ⟨cap⟩))
      | none => none

/-! ### Parser-side explanatory patterns and malformed-CSV salvage
(lines 228-261) -/

/-- First alternative of the parser's explanatory list:
`(i'll|i will|let me|i would) (output|return|provide|give you|format)`. -/
def parserExplanatoryAt (s : List Char) : Bool :=
  ["i'll ", "i will ", "let me ", "i would "].any fun a =>
    ["output", "return", "provide", "give you", "format"].any fun b =>
      startsWithCI (a ++ b) s

/-- The explanatory-text check of `parseWithFallbacks` (its own pattern
list, distinct from the validator's). -/
def parserExplanatoryMatch (s : List Char) : Bool :=
  boundaryScan parserExplanatoryAt s ||
  litBothBoundaries "format you specified" s ||
  litBothBoundaries "and i'll" s ||
  litBothBoundaries "four csv fields" s ||
  litBothBoundaries "output four csv fields" s

/-- The malformed-CSV salvage: when the cleaned response contains a comma,
take the second comma-separated part, trimmed and stripped of edge quotes;
accept it only when non-empty and different from the original text. -/
def salvageCandidate (cleaned text : String) : Option String :=
  if jsIncludes cleaned "," ∧ (jsSplitChar cleaned ',').length ≥ 2 then
    match (jsSplitChar cleaned ',')[1]? with
    | some p =>
      let cand := stripEdgeQuotes (jsTrim p)
      if cand ≠ "" ∧ cand ≠ text then some cand else none
    | none => none
  else none

/-! ### `ResponseValidator` (`src/lib/utils/rate-limiter.ts`, lines 104-286) -/

/-- First explanatory alternative of the validator:
`(i'll|i will|let me|i would|i can) (output|return|provide|give
you|format|translate)`. -/
def valExplanatoryAt1 (s : List Char) : Bool :=
  ["i'll ", "i will ", "let me ", "i would ", "i can "].any fun a =>
    ["output", "return", "provide", "give you", "format", "translate"].any fun b =>
      startsWithCI (a ++ b) s

/-- The validator's explanatory loop: the first matching pattern (in source
order) determines the issue text (`${pattern}` stringifies the regex). -/
def valExplanatoryHit (s : List Char) : Option String :=
  if boundaryScan valExplanatoryAt1 s then
    some "/\\b(i'll|i will|let me|i would|i can) (output|return|provide|give you|format|translate)/i"
  else if litBothBoundaries "format you specified" s then
    some "/\\bformat you specified\\b/i"
  else if litBothBoundaries "and i'll" s then
    some "/\\band i'll\\b/i"
  else if litBothBoundaries "here is the translation" s then
    some "/\\bhere is the translation\\b/i"
  else if litBothBoundaries "here are the four fields" s then
    some "/\\bhere are the four fields\\b/i"
  else if litBothBoundaries "four csv fields" s then
    some "/\\bfour csv fields\\b/i"
  else if litBothBoundaries "output four csv fields" s then
    some "/\\boutput four csv fields\\b/i"
  else none

/-- `/^[a-z]+ (concise|formal|informal)$/i`: a maximal letter run, a space,
one of the style words, end of string. -/
def styleSuffixMatch (s : List Char) : Bool :=
  let run := s.takeWhile (fun c => c.isAlpha)
  let rest := s.dropWhile (fun c => c.isAlpha)
  !run.isEmpty &&
    (match rest with
     | ' ' :: r₂ => ["concise", "formal", "informal"].any fun w => eqCI w r₂
     | _ => false)

/-- The validator's failure loop: first matching pattern (in source order)
with its stringification. -/
def failureHit (s : List Char) : Option String :=
  if (["i'm ", "i am "].any fun a =>
      ["ready", "happy", "prepared"].any fun b =>
        startsWithCI (a ++ b ++ " to translate") s) then
    some "/^(i'm|i am) (ready|happy|prepared) to translate/i"
  else if startsWithCI "please provide" s then some "/^please provide/i"
  else if startsWithCI "translate:" s then some "/^translate:/i"
  else if startsWithCI "error:" s then some "/^error:/i"
  else if startsWithCI "sorry" s then some "/^sorry/i"
  else if startsWithCI "i cannot" s then some "/^i cannot/i"
  else if eqCI "s concise" s then some "/^s concise$/i"
  else if styleSuffixMatch s then some "/^[a-z]+ (concise|formal|informal)$/i"
  else none

/-- `/[áéíóúñ¿¡]/i`. -/
def spanishCharTest (s : List Char) : Bool :=
  s.any fun c => "áéíóúñ¿¡ÁÉÍÓÚÑ".data.contains c

def spanishWordList : List String :=
  ["el", "la", "de", "que", "y", "a", "en", "un", "ser", "se", "no",
   "haber", "por", "con", "su", "para", "como", "estar", "tener", "le",
   "lo", "todo", "pero", "más", "hacer", "o", "poder", "decir", "este",
   "ir", "ver", "dar", "saber", "querer", "llegar", "pasar", "deber",
   "poner", "parecer", "quedar", "creer", "hablar", "llevar", "dejar",
   "seguir", "encontrar", "llamar", "venir", "pensar", "salir", "volver",
   "tomar", "conocer", "vivir"]

/-- The common-Spanish-words `\b(...)\b/i` test. -/
def spanishWordsTest (s : List Char) : Bool :=
  boundaryScan (fun t => spanishWordList.any fun w => litWithEndBoundary w t) s

def frenchCharTest (s : List Char) : Bool :=
  s.any fun c => "àâäçèéêëîïôùûüÀÂÄÇÈÉÊËÎÏÔÙÛÜ".data.contains c

def germanCharTest (s : List Char) : Bool :=
  s.any fun c => "äöüßÄÖÜ".data.contains c

def devanagariTest (s : List Char) : Bool :=
  s.any fun c => 0x900 ≤ c.toNat && c.toNat ≤ 0x97F

def kannadaTest (s : List Char) : Bool :=
  s.any fun c => 0xC80 ≤ c.toNat && c.toNat ≤ 0xCFF

/-- Issues and penalty of `ResponseValidator.checkLanguageSpecific`. -/
def langIssuesPenalty (text language : String) : List String × Nat :=
  let lang := jsToLower language
  if lang = "spanish" ∨ lang = "español" then
    let (i₁, p₁) :=
      if !spanishCharTest text.data ∧ text.length > 20 then
        (["Long text without Spanish-specific characters"], 10)
      else ([], 0)
    let (i₂, p₂) :=
      if !spanishWordsTest text.data ∧ (jsSplitChar text ' ').length > 3 then
        (["No common Spanish words detected"], 20)
      else ([], 0)
    (i₁ ++ i₂, p₁ + p₂)
  else if lang = "hindi" ∨ lang = "हिंदी" then
    if !devanagariTest text.data then
      (["No Devanagari script detected for Hindi translation"], 50)
    else ([], 0)
  else if lang = "french" ∨ lang = "français" then
    if !frenchCharTest text.data ∧ text.length > 20 then
      (["Long text without French-specific characters"], 10)
    else ([], 0)
  else if lang = "german" ∨ lang = "deutsch" then
    if !germanCharTest text.data ∧ text.length > 20 then
      (["Long text without German-specific characters"], 10)
    else ([], 0)
  else if lang = "marathi" ∨ lang = "मराठी" then
    if !devanagariTest text.data then
      (["No Devanagari script detected for Marathi translation"], 50)
    else ([], 0)
  else if lang = "kannada" ∨ lang = "ಕನ್ನಡ" then
    if !kannadaTest text.data then
      (["No Kannada script detected for Kannada translation"], 50)
    else ([], 0)
  else ([], 0)

/-- Result of `checkLanguageSpecific`: `valid` iff the penalty stays below
30. -/
structure LangCheckResult where
  valid : Bool
  issues : List String
  penalty : Nat
  deriving Repr, DecidableEq

def checkLanguageSpecific (text language : String) : LangCheckResult :=
  let (issues, penalty) := langIssuesPenalty text language
  ⟨decide (penalty < 30), issues, penalty⟩

/-- `ValidationResult` of the validator: `confidence` is clamped at 0, but
`isValid` is computed on the raw (possibly negative) score. -/
structure ValidationResult where
  isValid : Bool
  issues : List String
  confidence : Nat
  suggestedFix : Option String
  deriving Repr, DecidableEq

def styleDescriptors : List String :=
  ["concise", "formal", "casual", "polite", "friendly"]

/-- `ResponseValidator.suggestFix`. -/
def suggestFix (issues : List String) : Option String :=
  if issues.any (fun i => jsIncludes i "style descriptor") then
    some "The AI returned a style descriptor instead of a translation. Try clarifying the prompt to explicitly request the translated text."
  else if issues.any (fun i => jsIncludes i "failure pattern") then
    some "The AI response suggests it didn't understand the request. Consider simplifying the prompt or providing examples."
  else if issues.any (fun i => jsIncludes i "identical to original") then
    some "The translation is identical to the original. The AI might not have processed the request correctly."
  else none

/-- `ResponseValidator.validateTranslationResponse`.  Confidence starts at
100; each failed check subtracts its penalty (the explanatory loop runs
before the failure loop, as in the source); `isValid` iff the raw score is
still at least 50. -/
def validateTranslationResponse (response originalText targetLanguage : String) :
    ValidationResult :=
  let s := response.data
  let (i₁, p₁) :=
    if response.length < 3 then
      (["Response is suspiciously short (less than 3 characters)"], (40 : Int))
    else ([], 0)
  let (i₂, p₂) :=
    if jsToLower response = jsToLower originalText then
      (["Response is identical to original text"], (50 : Int))
    else ([], 0)
  let (i₃, p₃) :=
    match valExplanatoryHit s with
    | some pat =>
      (["Response contains explanatory text instead of translation: " ++ pat], (80 : Int))
    | none => ([], 0)
  let (i₄, p₄) :=
    match failureHit s with
    | some pat => (["Response matches failure pattern: " ++ pat], (60 : Int))
    | none => ([], 0)
  let lc := checkLanguageSpecific response targetLanguage
  let (i₅, p₅) :=
    if lc.valid = false then (lc.issues, (lc.penalty : Int)) else ([], 0)
  let (i₆, p₆) :=
    if jsIncludes response "\n" ∧ ¬ jsIncludes response "," then
      (["Response has newlines but no commas - might be malformed"], (20 : Int))
    else ([], 0)
  let words := jsSplitChar (jsToLower response) ' '
  let (i₇, p₇) :=
    if words.length = 1 ∧ styleDescriptors.contains (words.headD "") then
      (["Response appears to be only a style descriptor, not a translation"], (70 : Int))
    else if words.length = 2 ∧
        words.all (fun w => styleDescriptors.contains w || w == "translation") then
      (["Response appears to be a style descriptor phrase, not a translation"], (70 : Int))
    else ([], 0)
  let confidence : Int := 100 - p₁ - p₂ - p₃ - p₄ - p₅ - p₆ - p₇
  let issues := i₁ ++ i₂ ++ i₃ ++ i₄ ++ i₅ ++ i₆ ++ i₇
  ⟨decide (confidence ≥ 50), issues, (max 0 confidence).toNat, suggestFix issues⟩

/-! ### `parseWithFallbacks` (lines 169-298) -/

/-- The validation step of `parseWithFallbacks`: run only for a truthy
target language when the cleaned response has no comma; yields the
validation result exactly when it is invalid (the sentinel branch). -/
def validationVerdict (cleaned text : String) (targetLanguage : Option String) :
    Option ValidationResult :=
  match targetLanguage with
  | some lang =>
    if lang ≠ "" ∧ ¬ jsIncludes cleaned "," then
      let v := validateTranslationResponse cleaned text lang
      if v.isValid = false then some v else none
    else none
  | none => none

/-- The direct-response acceptance guard: short enough and free of
`translate`/`csv`. -/
def directResponseGuard (cleaned text : String) : Bool :=
  decide (cleaned.length < text.length * 3) &&
  !(jsIncludes (jsToLower cleaned) "translate") &&
  !(jsIncludes (jsToLower cleaned) "csv")

/-- Fallback chain of `parseWithFallbacks` after the primary parse: pattern
extraction, explanatory-text sentinel, malformed-CSV salvage, validation,
direct-response acceptance, final fallback. -/
def parseFallbackStages (response text : String)
    (targetLanguage : Option String) : TranslationResult :=
  match fallbackExtract response with
  | some t => ⟨t, "Unknown", "Extracted from response"⟩
  | none =>
    let cleaned := jsTrim response
    if parserExplanatoryMatch cleaned.data then
      ⟨text, "Error", "AI returned explanatory text instead of translation"⟩
    else
      match salvageCandidate cleaned text with
      | some cand => ⟨cand, "Unknown", "Extracted from malformed CSV"⟩
      | none =>
        match validationVerdict cleaned text targetLanguage with
        | some v => ⟨text, "Error", "Invalid response: " ++ v.issues.headD "undefined"⟩
        | none =>
          if directResponseGuard cleaned text then
            ⟨cleaned, "Unknown", "Direct response assumed as translation"⟩
          else ⟨text, "Error", "Failed to parse AI response"⟩

/-- `RobustCSVParser.parseWithFallbacks`. -/
def parseWithFallbacks (response text : String)
    (targetLanguage : Option String) : TranslationResult :=
  if acknowledgmentMatch response then
    ⟨"[ERROR]", "Error",
     "AI returned acknowledgment text instead of translation - likely missing CSV data"⟩
  else if structureGuard response then
    ⟨"[ERROR]", "Error", "Response mentions CSV structure without providing actual CSV"⟩
  else
    match parseAIResponse response with
    | some parsed =>
      if parsed.translation ≠ "" then parsed
      else parseFallbackStages response text targetLanguage
    | none => parseFallbackStages response text targetLanguage

/-- **C5** (counterexample).  The acknowledgment sentinel's reasoning is
'AI returned acknowledgment text instead of translation - likely missing
CSV data', not the claimed 'AI returned acknowledgment text instead of
translation': on the claim's own example the recoverer returns the longer
string. -/
theorem acknowledgmentRejection_reasoning_cex :
    parseWithFallbacks "Sure, I'll output the four fields now: greatness" "a" none
      = ⟨"[ERROR]", "Error",
         "AI returned acknowledgment text instead of translation - likely missing CSV data"⟩
    ∧ "AI returned acknowledgment text instead of translation - likely missing CSV data"
      ≠ "AI returned acknowledgment text instead of translation" := by
  exact ⟨rfl, by decide⟩

/-- **C5** (amended).  Acknowledgment rejection precedes structural parsing:
whenever the trimmed raw response matches one of the five acknowledgment
patterns, `parseWithFallbacks` returns the `[ERROR]` sentinel with category
'Error' and reasoning 'AI returned acknowledgment text instead of
translation - likely missing CSV data', for every original text and target
language — the trailing text is never accepted as a translation. -/
theorem acknowledgmentRejection_amended (response text : String)
    (targetLanguage : Option String)
    (h : acknowledgmentMatch response = true) :
    parseWithFallbacks response text targetLanguage
      = ⟨"[ERROR]", "Error",
         "AI returned acknowledgment text instead of translation - likely missing CSV data"⟩ := by
  simp only [parseWithFallbacks, h]
  rfl

/-- Witness for the amended C5 at a concrete acknowledgment response. -/
theorem acknowledgmentRejection_amended_witness :
    parseWithFallbacks "Sure, I'll provide the translation" "x" (some "Hindi")
      = ⟨"[ERROR]", "Error",
         "AI returned acknowledgment text instead of translation - likely missing CSV data"⟩ :=
  acknowledgmentRejection_amended "Sure, I'll provide the translation" "x"
    (some "Hindi") (by rfl)

/-- **C6**.  Recovery totality and the final fallback: `parseWithFallbacks`
is a total function (the embedding returns a `TranslationResult` for every
input — no exception escapes), and when every strategy fails — no
acknowledgment match, no structure-mention guard, primary parsing yields
nothing, no extraction pattern matches, no explanatory pattern matches, the
malformed-CSV salvage yields nothing, the validation branch does not reject,
and the direct-response guard fails — it returns the original source text
with category 'Error' and reasoning 'Failed to parse AI response'. -/
theorem recoveryFinalFallback (response text : String)
    (targetLanguage : Option String)
    (h₁ : acknowledgmentMatch response = false)
    (h₂ : structureGuard response = false)
    (h₃ : parseAIResponse response = none)
    (h₄ : fallbackExtract response = none)
    (h₅ : parserExplanatoryMatch (jsTrim response).data = false)
    (h₆ : salvageCandidate (jsTrim response) text = none)
    (h₇ : validationVerdict (jsTrim response) text targetLanguage = none)
    (h₈ : directResponseGuard (jsTrim response) text = false) :
    parseWithFallbacks response text targetLanguage
      = ⟨text, "Error", "Failed to parse AI response"⟩ := by
  simp only [parseWithFallbacks, parseFallbackStages, h₁, h₂, h₃, h₄, h₅, h₆,
    h₇, h₈, Bool.false_eq_true, if_false]

/-- Witness for C6: a response defeating every strategy degrades to the
typed final fallback. -/
theorem recoveryFinalFallback_witness :
    parseWithFallbacks "how to translate greatness" "a" none
      = ⟨"a", "Error", "Failed to parse AI response"⟩ :=
  recoveryFinalFallback "how to translate greatness" "a" none
    rfl rfl rfl rfl rfl rfl rfl rfl

/-- **C7** (counterexample).  For candidate "Settings" (no Devanagari),
target language "Hindi" and the 9-character source "Settings.", the
validator's only penalty is the Devanagari check's 50, leaving confidence
exactly 50 — NOT strictly below 50 — so the response is judged valid, and
the recoverer accepts "Settings" as a direct response instead of returning
a sentinel. -/
theorem hindiPlausibility_cex :
    (validateTranslationResponse "Settings" "Settings." "Hindi").confidence = 50
    ∧ (validateTranslationResponse "Settings" "Settings." "Hindi").isValid = true
    ∧ ("Settings." : String).length = 9
    ∧ parseWithFallbacks "Settings" "Settings." (some "Hindi")
      = ⟨"Settings", "Unknown", "Direct response assumed as translation"⟩ := by
  exact ⟨rfl, rfl, rfl, rfl⟩

/-- **C7** (amended).  For candidate "Settings" with target "Hindi" and any
9-character source text that does not lowercase to "settings", the
missing-Devanagari penalty of 50 leaves confidence exactly 50, which the
`confidence >= 50` rule accepts; `parseWithFallbacks` therefore returns
"Settings" with category 'Unknown' and reasoning 'Direct response assumed
as translation' rather than a sentinel. -/
theorem hindiPlausibility_amended (text : String)
    (hlen : text.length = 9)
    (hne : jsToLower text ≠ "settings") :
    (validateTranslationResponse "Settings" text "Hindi").confidence = 50
    ∧ (validateTranslationResponse "Settings" text "Hindi").isValid = true
    ∧ parseWithFallbacks "Settings" text (some "Hindi")
      = ⟨"Settings", "Unknown", "Direct response assumed as translation"⟩ := by
  have hcond : ¬ (jsToLower "Settings" = jsToLower text) := by
    intro h
    exact hne (h.symm.trans (by rfl))
  have hval : validateTranslationResponse "Settings" text "Hindi"
      = ⟨true, ["No Devanagari script detected for Hindi translation"], 50, none⟩ := by
    unfold validateTranslationResponse
    rw [if_neg hcond]
    rfl
  have hstep : parseWithFallbacks "Settings" text (some "Hindi")
      = parseFallbackStages "Settings" text (some "Hindi") := rfl
  have hstage : parseFallbackStages "Settings" text (some "Hindi")
      = (match validationVerdict "Settings" text (some "Hindi") with
         | some v =>
           (⟨text, "Error", "Invalid response: " ++ v.issues.headD "undefined"⟩ :
             TranslationResult)
         | none =>
           if directResponseGuard "Settings" text then
             ⟨"Settings", "Unknown", "Direct response assumed as translation"⟩
           else ⟨text, "Error", "Failed to parse AI response"⟩) := rfl
  have hvv : validationVerdict "Settings" text (some "Hindi")
      = (if (validateTranslationResponse "Settings" text "Hindi").isValid = false
         then some (validateTranslationResponse "Settings" text "Hindi")
         else none) := rfl
  have hvv' : validationVerdict "Settings" text (some "Hindi") = none := by
    rw [hvv, hval]
    rfl
  have hguard : directResponseGuard "Settings" text = true := by
    unfold directResponseGuard
    rw [hlen]
    rfl
  refine ⟨by rw [hval], by rw [hval], ?_⟩
  rw [hstep, hstage, hvv', hguard]
  rfl

/-- Witness for the amended C7 at a concrete 9-character source text. -/
theorem hindiPlausibility_amended_witness :
    ("Abcdefghi" : String).length = 9
    ∧ jsToLower "Abcdefghi" ≠ "settings"
    ∧ parseWithFallbacks "Settings" "Abcdefghi" (some "Hindi")
      = ⟨"Settings", "Unknown", "Direct response assumed as translation"⟩ :=
  ⟨by rfl, by decide,
    (hindiPlausibility_amended "Abcdefghi" (by rfl) (by decide)).2.2⟩
